import Mathlib

/-!
A shallow embedding of rustfmt's declaration-reordering engine
(src/reorder.rs) together with proofs about its behaviour.

Declarations are modelled as a Lean structure carrying the syntactic
kind, attribute markers, byte span and looked-up line range.  Collaborator
code that lives outside reorder.rs (imports.rs, sort.rs, items.rs,
lists.rs) is either modelled from the specification (marked in the doc
comment of the definition) or abstracted as a function field of the
rewrite context.
-/

namespace Reorder
/-- Three-valued comparison on naturals, written out explicitly so that
its algebraic laws are immediate. -/
def natCmp (a b : Nat) : Ordering :=
  if a < b then .lt else if b < a then .gt else .eq

/-- Code-point comparison of characters, as Rust compares `char`/UTF-8
bytes (UTF-8 byte order agrees with code-point order). -/
def charCmp (a b : Char) : Ordering :=
  natCmp a.toNat b.toNat

/-- Lexicographic comparison of lists under an element comparator; a
strict prefix is smaller.  This is how Rust orders `str` and slices. -/
def listCmp (cmp : α → α → Ordering) : List α → List α → Ordering
  | [], [] => .eq
  | [], _ :: _ => .lt
  | _ :: _, [] => .gt
  | x :: xs, y :: ys =>
    match cmp x y with
    | .eq => listCmp cmp xs ys
    | o => o

/-- Code-point lexicographic comparison of strings: the embedding of
`str::cmp` from Rust. -/
def strCmp (a b : String) : Ordering :=
  listCmp charCmp a.data b.data

/-- One chunk of a version-sort tokenisation: either a maximal run of
digits read as a numeric value, or a single non-digit character. -/
inductive VChunk where
  | num (n : Nat)
  | ch (c : Char)
deriving DecidableEq

/-- Tokenisation worker: walks the characters once, accumulating the
numeric value of the digit run currently being read (if any). -/
def vchunksAux : List Char → Option Nat → List VChunk
  | [], none => []
  | [], some n => [.num n]
  | c :: cs, none =>
    if c.isDigit then vchunksAux cs (some (c.toNat - 48))
    else .ch c :: vchunksAux cs none
  | c :: cs, some n =>
    if c.isDigit then vchunksAux cs (some (n * 10 + (c.toNat - 48)))
    else .num n :: .ch c :: vchunksAux cs none

/-- Tokenise a character list into version-sort chunks: maximal digit
runs become numeric chunks read as values, every other character is its
own chunk. -/
def vchunks (l : List Char) : List VChunk :=
  vchunksAux l none

/-- Comparison of version chunks: numeric chunks compare by value and
sort before character chunks, character chunks compare by code point. -/
def vchunkCmp : VChunk → VChunk → Ordering
  | .num a, .num b => natCmp a b
  | .num _, .ch _ => .lt
  | .ch _, .num _ => .gt
  | .ch a, .ch b => charCmp a b

/-- Modelled from the spec: `version_sort` lives in sort.rs, which is not
part of the sources; the spec describes natural/version-aware order as
string comparison treating embedded digit runs as numeric values rather
than comparing digit characters individually. -/
def version_sort (a b : String) : Ordering :=
  listCmp vchunkCmp (vchunks a.data) (vchunks b.data)

/-- A path segment of a normalized import tree other than a nested
list: an identifier with an optional rename, one of the three local-root
markers, or a glob. -/
inductive SimpleSeg where
  | ident (name : String) (rename : Option String)
  | slf
  | sup
  | crateRoot
  | glob
deriving DecidableEq

/-- Modelled from the spec: the `UseTree` type lives in imports.rs, which
is not part of the sources.  Per the spec a normalized import tree is an
ordered sequence of path segments plus an optional trailing nested list
of sub-trees. -/
inductive UseTree where
  | path (segs : List SimpleSeg)
  | nested (pre : List SimpleSeg) (ts : List UseTree)

/-- The fully-qualified leaf paths represented by a normalized import
tree: a plain path is one leaf, a nested list contributes every leaf of
every sub-tree prefixed by the leading segments. -/
def leaves : UseTree → List (List SimpleSeg)
  | .path segs => [segs]
  | .nested pre ts =>
    ((ts.attach.map (fun t => leaves t.1)).flatten).map (fun l => pre ++ l)
termination_by t => sizeOf t
decreasing_by
  simp_wf
  have := List.sizeOf_lt_of_mem t.2
  omega

/-- An attribute marker carried by a declaration. -/
inductive Marker where
  | macroUse
  | skipFmt
  | otherMarker (name : String)
deriving DecidableEq, BEq

/-- The syntactic kind of a top-level declaration, as far as the
reordering engine inspects it.  For modules, `inlineBody` records whether
the module body is written inline (as opposed to a forward declaration
referencing an external file). -/
inductive ItemKind where
  | externCrate (origName : Option String) (ident : String)
  | mod (ident : String) (inlineBody : Bool)
  | use (tree : UseTree)
  | fn
  | structItem
  | enumItem
  | implItem
  | traitItem
  | union
  | tyAlias
  | constItem
  | staticItem
  | macroDef
  | macCall
  | otherKind

/-- A half-open line range as returned by the source map for a span,
with the source-map invariant that the range is well formed. -/
structure LineRange where
  lo : Nat
  hi : Nat
  lo_le_hi : lo ≤ hi

/-- A byte span in the source text. -/
structure Span where
  lo : Nat
  hi : Nat

/-- A borrowed declaration node: syntactic kind, attribute markers, byte
span, and the line range the source map reports for that span. -/
structure Item where
  kind : ItemKind
  attrs : List Marker
  span : Span
  lineRange : LineRange

/-- The configured policy for grouping imports. -/
inductive GroupImportsTactic where
  | preserve
  | stdExternalCrate
  | one
deriving DecidableEq, BEq

/-- The configured granularity for merging or splitting import trees. -/
inductive ImportGranularity where
  | preserve
  | crate
  | module
  | item
  | one
deriving DecidableEq, BEq

/-- The configuration options the reordering engine reads.  The style
edition is modelled as its year; the legacy threshold of the source,
`StyleEdition::Edition2021`, is the year 2021. -/
structure Config where
  reorder_imports : Bool
  reorder_modules : Bool
  group_imports : GroupImportsTactic
  imports_granularity : ImportGranularity
  style_edition : Nat
deriving DecidableEq

/-- The error type of a failed rewrite, following the spec's taxonomy. -/
inductive RewriteError where
  | unsupported
  | layoutOverflow
  | unknown
deriving DecidableEq

/-- Width constraints handed to the layout engine: the available width
and the current indent, in columns. -/
structure Shape where
  width : Nat
  indent : Nat
deriving DecidableEq

/-- Modelled from the spec: `is_mod_decl` lives in items.rs, which is not
part of the sources.  Per the spec a module declaration counts as a
declaration only when it is a forward declaration referencing an external
file; a module with an inline body does not. -/
def is_mod_decl (item : Item) : Bool :=
  match item.kind with
  | .mod _ inlineBody => !inlineBody
  | _ => true

/-- Whether the declaration carries the implicit-macro-import marker
(the embedding of `attr::contains_name(&item.attrs, sym::macro_use)`). -/
def contains_macro_use_attr (item : Item) : Bool :=
  item.attrs.any (fun a => a == Marker.macroUse)

/-- Whether the attribute list carries the skip-formatting marker (the
embedding of `contains_skip` from utils.rs). -/
def contains_skip (attrs : List Marker) : Bool :=
  attrs.any (fun a => a == Marker.skipFmt)

/-- A simplified version of the item kind: the reorder-kind of a
declaration.  `other` is an item that cannot be reordered, either because
of its syntactic kind or because of a `macro_use` attribute. -/
inductive ReorderableItemKind where
  | externCrate
  | mod
  | use
  | other
deriving DecidableEq, BEq

/-- The classifier `ReorderableItemKind::from`: the guard arm for the
skip and `macro_use` markers is checked first, then the syntactic kind
decides (a module only when it is a forward declaration). -/
def ReorderableItemKind.fromItem (item : Item) : ReorderableItemKind :=
  if contains_macro_use_attr item || contains_skip item.attrs then .other
  else
    match item.kind with
    | .externCrate .. => .externCrate
    | .mod .. => if is_mod_decl item then .mod else .other
    | .use .. => .use
    | _ => .other

def ReorderableItemKind.is_same_item_kind (self : ReorderableItemKind)
    (item : Item) : Bool :=
  ReorderableItemKind.fromItem item == self

def ReorderableItemKind.is_reorderable (self : ReorderableItemKind)
    (config : Config) : Bool :=
  match self with
  | .externCrate => config.reorder_imports
  | .mod => config.reorder_modules
  | .use => config.reorder_imports
  | .other => false

def ReorderableItemKind.is_regroupable (self : ReorderableItemKind)
    (config : Config) : Bool :=
  match self with
  | .externCrate | .mod | .other => false
  | .use => config.group_imports != GroupImportsTactic.preserve

def ReorderableItemKind.in_group (self : ReorderableItemKind)
    (config : Config) : Bool :=
  match self with
  | .externCrate | .mod => true
  | .use => config.group_imports == GroupImportsTactic.preserve
  | .other => false

/-- The edition-conditioned name policy of the spec: strict code-point
lexicographic order at or below the legacy threshold, natural
version-aware order above it. -/
def edition_cmp (config : Config) (a b : String) : Ordering :=
  if config.style_edition ≤ 2021 then strCmp a b else version_sort a b

/-- Choose the ordering between the given two items
(`compare_items` from reorder.rs; only the configuration part of the
rewrite context is consulted).  The source is `unreachable!` for a pair
of items that are not both modules or both extern crates; the embedding
returns `.eq` there, and every theorem restricts itself to same-kind
pairs. -/
def compare_items (config : Config) (a b : Item) : Ordering :=
  match a.kind, b.kind with
  | .mod a_ident _, .mod b_ident _ =>
    if config.style_edition ≤ 2021 then strCmp a_ident b_ident
    else version_sort a_ident b_ident
  | .externCrate a_name a_ident, .externCrate b_name b_ident =>
    let a_orig_name := a_name.getD a_ident
    let b_orig_name := b_name.getD b_ident
    let result :=
      if config.style_edition ≤ 2021 then strCmp a_orig_name b_orig_name
      else version_sort a_orig_name b_orig_name
    if result ≠ .eq then result
    else
      match a_name, b_name with
      | some _, none => .gt
      | none, some _ => .lt
      | none, none => .eq
      | some _, some _ =>
        if config.style_edition ≤ 2021 then strCmp a_ident b_ident
        else version_sort a_ident b_ident
  | _, _ => .eq

/-- The classifier as the claim words it, for comparison with the
translated source: a declaration carrying a skip marker or an
implicit-macro-import marker is `other` regardless of syntactic kind;
otherwise an extern-crate declaration is `externCrate`, a module
declaration is `mod` exactly when it is a forward declaration referencing
an external file (an inline module body is `other`), a use declaration is
`use`, and every other declaration is `other`. -/
def classifySpec (item : Item) : ReorderableItemKind :=
  if contains_skip item.attrs || contains_macro_use_attr item then .other
  else
    match item.kind with
    | .externCrate .. => .externCrate
    | .mod _ inlineBody => if inlineBody then .other else .mod
    | .use .. => .use
    | _ => .other

/-- The rename tie-break of the extern-crate comparison: unaliased sorts
before aliased, two aliases compare by alias name under the
edition-conditioned policy. -/
def extern_tie_cmp (config : Config) (a_name b_name : Option String)
    (a_ident b_ident : String) : Ordering :=
  match a_name, b_name with
  | some _, none => .gt
  | none, some _ => .lt
  | none, none => .eq
  | some _, some _ => edition_cmp config a_ident b_ident

/-- The extern-crate branch of `compare_items`, factored out so that its
algebraic laws can be stated: origin names first, then the rename
tie-break. -/
def extern_cmp (config : Config) (a_name : Option String) (a_ident : String)
    (b_name : Option String) (b_ident : String) : Ordering :=
  let r := edition_cmp config (a_name.getD a_ident) (b_name.getD b_ident)
  if r ≠ .eq then r else extern_tie_cmp config a_name b_name a_ident b_ident

/-- A module declaration of that name (forward declaration, no attrs),
used for concrete evaluations. -/
def mod_item (name : String) : Item :=
  { kind := .mod name false, attrs := [], span := ⟨0, 0⟩,
    lineRange := ⟨0, 0, Nat.le.refl⟩ }

/-- An extern-crate declaration with the given optional origin name and
identifier, used for concrete evaluations. -/
def ec_item (origName : Option String) (ident : String) : Item :=
  { kind := .externCrate origName ident, attrs := [], span := ⟨0, 0⟩,
    lineRange := ⟨0, 0, Nat.le.refl⟩ }

/-- The declared module name of an item, or the empty string. -/
def item_mod_name (item : Item) : String :=
  match item.kind with
  | .mod n _ => n
  | _ => ""

/-- A stable sort by the pairwise comparator, the embedding of
`Vec::sort_by` with `compare_items`. -/
def sort_items_by_compare (config : Config) (items : List Item) : List Item :=
  List.insertionSort (fun a b => compare_items config a b ≠ Ordering.gt) items

/-- A configuration whose style edition is at the legacy threshold. -/
def legacy_config : Config :=
  ⟨true, true, .preserve, .preserve, 2021⟩

/-- A configuration whose style edition is above the legacy threshold. -/
def modern_config : Config :=
  ⟨true, true, .preserve, .preserve, 2024⟩

/-- The item has module kind. -/
def isModuleItem (it : Item) : Prop :=
  ∃ (n : String) (inlineBody : Bool), it.kind = ItemKind.mod n inlineBody

/-- The item has extern-crate kind. -/
def isExternCrateItem (it : Item) : Prop :=
  ∃ (n : Option String) (i : String), it.kind = ItemKind.externCrate n i

/-- Rank of a non-list segment in the spec's structural order
(SelfMarker, SuperMarker, CrateRootMarker, Identifier, NestedList, Glob);
rank 4 is reserved for the nested-list pseudo-segment. -/
def segRank : SimpleSeg → Nat
  | .slf => 0
  | .sup => 1
  | .crateRoot => 2
  | .ident _ _ => 3
  | .glob => 5

/-- Rename comparison: a plain identifier sorts before the same
identifier carrying an alias; two aliases compare by name. -/
def rename_cmp : Option String → Option String → Ordering
  | none, none => .eq
  | none, some _ => .lt
  | some _, none => .gt
  | some a, some b => strCmp a b

/-- Comparison of non-list segments per the spec's structural order. -/
def segCmp : SimpleSeg → SimpleSeg → Ordering
  | .ident n₁ r₁, .ident n₂ r₂ => (strCmp n₁ n₂).then (rename_cmp r₁ r₂)
  | a, b => natCmp (segRank a) (segRank b)

/-- Comparison of leaf paths: segment-lexicographic. -/
def leafCmp (a b : List SimpleSeg) : Ordering :=
  listCmp segCmp a b

/-- The recursively-sorted leaves of a nested list of sub-trees. -/
def sortedLeafList (ts : List UseTree) : List (List SimpleSeg) :=
  List.insertionSort (fun a b => leafCmp a b ≠ Ordering.gt) (ts.flatMap leaves)

/-- The key sequence of a tree for the structural order: its plain
segments, with a trailing nested list keyed by its recursively-sorted
leaves. -/
def treeKeys : UseTree → List (Sum SimpleSeg (List (List SimpleSeg)))
  | .path segs => segs.map Sum.inl
  | .nested pre ts => pre.map Sum.inl ++ [Sum.inr (sortedLeafList ts)]

/-- Comparison of key-sequence entries; a nested list sits between
identifiers (rank 3) and globs (rank 5). -/
def keyCmp :
    Sum SimpleSeg (List (List SimpleSeg)) →
    Sum SimpleSeg (List (List SimpleSeg)) → Ordering
  | .inl a, .inl b => segCmp a b
  | .inl a, .inr _ => natCmp (segRank a) 4
  | .inr _, .inl b => natCmp 4 (segRank b)
  | .inr x, .inr y => listCmp leafCmp x y

/-- Modelled from the spec: the `Ord` instance of `UseTree` lives in the
file imports.rs, which is not part of the sources.  The spec's structural
order compares path segment sequences lexicographically, with markers
before identifiers before nested lists before globs, identifiers by name
then by rename, and nested lists by their recursively-sorted leaves. -/
def UseTree.cmp (t u : UseTree) : Ordering :=
  listCmp keyCmp (treeKeys t) (treeKeys u)

/-- The embedding of `Vec::sort` on use trees (`items.sort()` in the
source): a stable sort under the structural order. -/
def sort_use_trees (uts : List UseTree) : List UseTree :=
  List.insertionSort (fun a b => UseTree.cmp a b ≠ Ordering.gt) uts

/-- Worker for `group_imports`: the source loops over the trees, pushing
each into one of three vectors according to its first path segment. -/
def group_imports_go :
    List UseTree → List UseTree → List UseTree → List UseTree →
    List (List UseTree)
  | [], std_imports, external_imports, local_imports =>
    [std_imports, external_imports, local_imports]
  | ut :: rest, std_imports, external_imports, local_imports =>
    match ut with
    | .path [] =>
      group_imports_go rest std_imports (external_imports ++ [ut]) local_imports
    | .nested [] _ =>
      group_imports_go rest std_imports (external_imports ++ [ut]) local_imports
    | .path (s :: _) | .nested (s :: _) _ =>
      match s with
      | .ident id _ =>
        if id = "std" ∨ id = "alloc" ∨ id = "core" then
          group_imports_go rest (std_imports ++ [ut]) external_imports local_imports
        else
          group_imports_go rest std_imports (external_imports ++ [ut]) local_imports
      | .slf | .sup | .crateRoot =>
        group_imports_go rest std_imports external_imports (local_imports ++ [ut])
      | .glob =>
        group_imports_go rest std_imports (external_imports ++ [ut]) local_imports

/-- Divides imports into three groups, corresponding to standard,
external and local imports (`group_imports` from reorder.rs).  An empty
path goes to the external group; a first segment that is an identifier
goes to the standard group for the three standard-platform roots and to
the external group otherwise; self, super and crate markers go to the
local group; globs and nested lists in first position go to the external
group. -/
def group_imports (uts : List UseTree) : List (List UseTree) :=
  group_imports_go uts [] [] []

/-- The tree's first path segment is a standard-platform root, as the
claim words it. -/
def is_std_root (ut : UseTree) : Bool :=
  match ut with
  | .path (.ident id _ :: _) | .nested (.ident id _ :: _) _ =>
    id == "std" || id == "alloc" || id == "core"
  | _ => false

/-- The tree's first path segment is a self, super or crate marker, as
the claim words it. -/
def is_local_root (ut : UseTree) : Bool :=
  match ut with
  | .path (.slf :: _) | .nested (.slf :: _) _ => true
  | .path (.sup :: _) | .nested (.sup :: _) _ => true
  | .path (.crateRoot :: _) | .nested (.crateRoot :: _) _ => true
  | _ => false

/-- Everything that is neither standard- nor local-rooted, including
trees with an empty path and trees whose first segment is a glob or a
nested list, as the claim words it. -/
def is_external_root (ut : UseTree) : Bool :=
  !is_std_root ut && !is_local_root ut

/-- Modelled from the spec: the crate granularity merges leaves that
share a common first path segment; the split of a leaf into its first
segment and the rest. -/
def crate_split (l : List SimpleSeg) :
    Option (List SimpleSeg × List SimpleSeg) :=
  match l with
  | [] => none
  | _ :: _ => some (l.take 1, l.drop 1)

/-- Modelled from the spec: the module granularity merges leaves that
share the full prefix up to the last segment; the split of a leaf into
that prefix and its last segment. -/
def module_split (l : List SimpleSeg) :
    Option (List SimpleSeg × List SimpleSeg) :=
  if 2 ≤ l.length then some (l.take (l.length - 1), l.drop (l.length - 1))
  else none

/-- The merge key of a leaf under a split, if the leaf participates. -/
def split_key
    (split : List SimpleSeg → Option (List SimpleSeg × List SimpleSeg))
    (l : List SimpleSeg) : Option (List SimpleSeg) :=
  (split l).map Prod.fst

/-- Modelled from the spec: merge a flat list of leaves into nested
trees, one tree per distinct merge key, leaves without a key staying as
plain paths. -/
def mergeBySplit
    (split : List SimpleSeg → Option (List SimpleSeg × List SimpleSeg))
    (ls : List (List SimpleSeg)) : List UseTree :=
  let ungrouped := (ls.filter (fun l => (split_key split l).isNone)).map UseTree.path
  let keys := (ls.filterMap (split_key split)).dedup
  let grouped := keys.map (fun p =>
    UseTree.nested p (ls.filterMap (fun l =>
      match split l with
      | some (q, r) => if q = p then some (UseTree.path r) else none
      | none => none)))
  ungrouped ++ grouped

/-- Modelled from the spec: `normalize_use_trees_with_granularity` lives
in imports.rs, which is not part of the sources.  Preserve keeps the tree
shapes as written; Item flattens every import into one leaf per
declaration; Crate merges leaves sharing a common first path segment into
one nested tree each; Module merges leaves sharing the full prefix up to
the last segment; One merges the entire run into a single nested tree. -/
def normalize_use_trees_with_granularity (uts : List UseTree)
    (g : ImportGranularity) : List UseTree :=
  match g with
  | .preserve => uts
  | .item => (uts.flatMap leaves).map UseTree.path
  | .crate => mergeBySplit crate_split (uts.flatMap leaves)
  | .module => mergeBySplit module_split (uts.flatMap leaves)
  | .one => [UseTree.nested [] uts]

/-- The import-run pipeline of `rewrite_reorderable_or_regroupable_items`
for use items: normalize per the configured granularity, regroup per the
configured grouping tactic, and sort each group when import reordering is
enabled. -/
def regroup_use_trees (config : Config) (uts : List UseTree) :
    List (List UseTree) :=
  let normalized_items := normalize_use_trees_with_granularity uts
    config.imports_granularity
  let regrouped_items :=
    match config.group_imports with
    | .preserve | .one => [normalized_items]
    | .stdExternalCrate => group_imports normalized_items
  if config.reorder_imports then regrouped_items.map sort_use_trees
  else regrouped_items

/-- The multiset of fully-qualified leaf paths of a list of trees. -/
def leaf_multiset (uts : List UseTree) : Multiset (List SimpleSeg) :=
  ↑(uts.flatMap leaves)

/-- The rewrite context: the configuration plus the collaborators the
source borrows from the surrounding formatter, abstracted as functions.
`snippet` is the snippet provider, `outOfFileLines` the file-lines check
of the `out_of_file_lines_range` macro, `renderUseTree` the
`rewrite_top_level` of a normalized tree, and `renderExternCrate` and
`renderMod` the `rewrite_extern_crate` and `rewrite_mod` of items.rs. -/
structure Context where
  config : Config
  snippet : Span → String
  outOfFileLines : Span → Bool
  renderUseTree : UseTree → Shape → Except RewriteError String
  renderExternCrate : Item → Shape → Except RewriteError String
  renderMod : Item → Shape → Except RewriteError String

/-- Modelled from the spec: `Shape::offset_left` of shape.rs reserves
columns on the left for a syntactic prefix, failing when the width is
exhausted. -/
def Shape.offset_left (s : Shape) (n : Nat) (sp : Span) :
    Except RewriteError Shape :=
  if n ≤ s.width then .ok ⟨s.width - n, s.indent + n⟩
  else .error .layoutOverflow

/-- Modelled from the spec: `Shape::sub_width` of shape.rs reserves
columns on the right for a syntactic suffix, failing when the width is
exhausted. -/
def Shape.sub_width (s : Shape) (n : Nat) (sp : Span) :
    Except RewriteError Shape :=
  if n ≤ s.width then .ok ⟨s.width - n, s.indent⟩
  else .error .layoutOverflow

/-- The embedding of `collect::<Result<Vec<_>, RewriteError>>`: the
first error wins, otherwise all payloads in order. -/
def except_collect : List (Except RewriteError α) → Except RewriteError (List α)
  | [] => .ok []
  | x :: rest => do
    let a ← x
    let as2 ← except_collect rest
    return a :: as2

/-- Modelled from the spec: `write_list` of lists.rs renders a list of
formatting units; if any unit cannot be individually rewritten the whole
list fails, otherwise each unit occupies its own line. -/
def write_list (items : List (Except RewriteError String)) :
    Except RewriteError String := do
  let ss ← except_collect items
  return String.intercalate "\n" ss

/-- The embedding of `wrap_reorderable_items`: hand the units to the
layout engine with an empty separator and comment alignment disabled. -/
def wrap_reorderable_items (ctx : Context)
    (list_items : List (Except RewriteError String)) (shape : Shape) :
    Except RewriteError String :=
  write_list list_items

/-- One reorderable declaration rewritten on its own: extern crates and
modules delegate to their collaborators, anything else is an unknown
rewrite error (`rewrite_reorderable_item` from reorder.rs). -/
def rewrite_reorderable_item (ctx : Context) (item : Item) (shape : Shape) :
    Except RewriteError String :=
  match item.kind with
  | .externCrate .. => ctx.renderExternCrate item shape
  | .mod .. => ctx.renderMod item shape
  | _ => .error .unknown

/-- Modelled from the spec: `UseTree::from_ast_with_normalization` of the
file imports.rs builds the normalized tree of a use declaration; a
declaration that is not a use yields no tree. -/
def from_ast_with_normalization (ctx : Context) (item : Item) :
    Option UseTree :=
  match item.kind with
  | .use t => some t
  | _ => none

/-- The indent rendered as spaces (`Indent::to_string`). -/
def indent_str (s : Shape) : String :=
  String.mk (List.replicate s.indent ' ')

/-- The non-empty groups of an import run after normalization,
regrouping and optional sorting: the groups the use branch of
`rewrite_reorderable_or_regroupable_items` renders. -/
def use_run_blocks (ctx : Context) (items : List Item) :
    List (List UseTree) :=
  (regroup_use_trees ctx.config
    (items.filterMap (from_ast_with_normalization ctx))).filter
    (fun use_group => !use_group.isEmpty)

/-- The use branch of `rewrite_reorderable_or_regroupable_items`:
normalize, regroup, sort, render every non-empty group as one block, and
join the blocks with a blank line plus the indent.  Any failing block
fails the whole run. -/
def rewrite_use_run (ctx : Context) (items : List Item) (shape : Shape)
    (span : Span) : Except RewriteError String := do
  let s1 ← shape.offset_left 4 span
  let nested_shape ← s1.sub_width 1 span
  let item_vec ← except_collect ((use_run_blocks ctx items).map
    (fun use_group => wrap_reorderable_items ctx
      (use_group.map (fun use_tree => ctx.renderUseTree use_tree nested_shape))
      nested_shape))
  return String.intercalate ("\n\n" ++ indent_str shape) item_vec

/-- Rewrite a list of items with reordering and/or regrouping; every
item must have the same kind (`rewrite_reorderable_or_regroupable_items`
from reorder.rs).  The use branch runs the import pipeline; the other
branch renders each item, sorts the pairs with `compare_items` and hands
the results to the layout engine. -/
def rewrite_reorderable_or_regroupable_items (ctx : Context)
    (reorderable_items : List Item) (shape : Shape) (span : Span) :
    Except RewriteError String :=
  match reorderable_items with
  | [] => .error .unknown
  | first :: _ =>
    match first.kind with
    | .use _ => rewrite_use_run ctx reorderable_items shape span
    | _ =>
      let list_items := reorderable_items.map
        (fun item => (item, rewrite_reorderable_item ctx item shape))
      let item_pair_vec := List.insertionSort
        (fun a b => compare_items ctx.config a.1 b.1 ≠ Ordering.gt) list_items
      wrap_reorderable_items ctx (item_pair_vec.map (fun pair => pair.2)) shape

/-- One formatting action pushed to the visitor's output buffer: a span
rewrite (`push_rewrite`, where `none` keeps the original snippet), a
synthetic newline, or an ordinary visit of one item. -/
inductive OutEvent where
  | rewriteSpan (sp : Span) (txt : Option String)
  | blankLine
  | visit (it : Item)

/-- The length of the run accepted by the walker's take-while: the items
share the kind and, when `in_group` is set, each one starts less than two
lines after the previous one ends. -/
def walk_run_len (item_kind : ReorderableItemKind) (in_group : Bool) :
    LineRange → List Item → Nat
  | _, [] => 0
  | last, ppi :: rest =>
    if item_kind.is_same_item_kind ppi &&
        (!in_group || decide (ppi.lineRange.lo < last.hi + 2)) then
      1 + walk_run_len item_kind in_group ppi.lineRange rest
    else 0

/-- The walker over one run
(`walk_reorderable_or_regroupable_items`): truncate to the run, rewrite
it as one block replacing the run's span (keeping the original text when
the rewrite fails), or push per-item keep-original rewrites when every
item is outside the formatted file lines; returns the events and the
number of visited items. -/
def walk_reorderable_or_regroupable_items (ctx : Context) (shape : Shape)
    (items : List Item) (item_kind : ReorderableItemKind) (in_group : Bool) :
    List OutEvent × Nat :=
  match items with
  | [] => ([], 0)
  | it0 :: _ =>
    let item_length := walk_run_len item_kind in_group it0.lineRange items
    let run := items.take item_length
    let at_least_one_in_file_lines :=
      run.any (fun item => !(ctx.outOfFileLines item.span))
    let events :=
      if at_least_one_in_file_lines && !run.isEmpty then
        let lo := it0.span.lo
        let hi := ((run.getLast?).map (fun i => i.span.hi)).getD 0
        let sp := Span.mk lo hi
        let rw := rewrite_reorderable_or_regroupable_items ctx run shape sp
        [OutEvent.rewriteSpan sp rw.toOption]
      else
        run.map (fun item => OutEvent.rewriteSpan item.span none)
    (events, item_length)

/-- Whether the item is an item-like construct for which blank-line
separation applies (`is_item_like` from reorder.rs). -/
def is_item_like (item : Item) : Bool :=
  match item.kind with
  | .fn | .structItem | .enumItem | .implItem | .traitItem | .mod _ _
  | .union | .tyAlias | .constItem | .staticItem | .macroDef | .macCall => true
  | _ => false

/-- The newline count of a snippet (`count_newlines` from utils.rs). -/
def count_newlines (s : String) : Nat :=
  s.data.countP (fun c => c == '\n')

/-- Ensure at least one blank line between two items: if the snippet
between them holds fewer than two newline characters, push one extra
newline (`ensure_blank_line_between_items` from reorder.rs). -/
def ensure_blank_line_between_items (ctx : Context) (prev next : Item) :
    List OutEvent :=
  let span_between := Span.mk prev.span.hi next.span.lo
  let gap := ctx.snippet span_between
  if count_newlines gap < 2 then [OutEvent.blankLine] else []

/-- Insert a blank line between two items if needed
(`maybe_ensure_blank_between` from reorder.rs). -/
def maybe_ensure_blank_between (ctx : Context) (prev : Option Item)
    (next : Item) : List OutEvent :=
  match prev with
  | some prev_item =>
    if is_item_like prev_item || is_item_like next then
      ensure_blank_line_between_items ctx prev_item next
    else []
  | none => []

/-- The top-level driver (`visit_items_with_reordering`): walk runs of
reorderable or regroupable declarations, push their rewrites, insert
blank lines where needed, and visit everything else one item at a
time. -/
def visit_items_with_reordering (ctx : Context) (shape : Shape) :
    Option Item → List Item → List OutEvent
  | _, [] => []
  | prev_item, it :: rest =>
    let item_kind := ReorderableItemKind.fromItem it
    if item_kind.is_reorderable ctx.config || item_kind.is_regroupable ctx.config then
      let walked := walk_reorderable_or_regroupable_items ctx shape (it :: rest)
        item_kind (item_kind.in_group ctx.config)
      let rest2 := (it :: rest).drop walked.2
      let blanks :=
        match rest2.head? with
        | some next => maybe_ensure_blank_between ctx prev_item next
        | none => []
      let prev2 :=
        match (it :: rest).get? (walked.2 - 1) with
        | some last => some last
        | none => prev_item
      walked.1 ++ blanks ++ visit_items_with_reordering ctx shape prev2 rest2
    else
      maybe_ensure_blank_between ctx prev_item it ++
        (OutEvent.visit it :: visit_items_with_reordering ctx shape (some it) rest)
termination_by prev items => items.length
decreasing_by
  all_goals simp_wf
  have hlen : 1 ≤ walk_run_len (ReorderableItemKind.fromItem it)
      ((ReorderableItemKind.fromItem it).in_group ctx.config)
      it.lineRange (it :: rest) := by
    unfold walk_run_len
    have hsame : (ReorderableItemKind.fromItem it).is_same_item_kind it = true := by
      unfold ReorderableItemKind.is_same_item_kind
      cases ReorderableItemKind.fromItem it <;> rfl
    have hlt : decide (it.lineRange.lo < it.lineRange.hi + 2) = true := by
      have := it.lineRange.lo_le_hi
      simp
      omega
    simp [hsame, hlt]
  have hcnt : (walk_reorderable_or_regroupable_items ctx shape (it :: rest)
      (ReorderableItemKind.fromItem it)
      ((ReorderableItemKind.fromItem it).in_group ctx.config)).2 =
      walk_run_len (ReorderableItemKind.fromItem it)
        ((ReorderableItemKind.fromItem it).in_group ctx.config)
        it.lineRange (it :: rest) := by
    simp only [walk_reorderable_or_regroupable_items]
  rw [hcnt]
  omega

/-- The walker of the sequence head, with the kind and group flag the
driver passes for it. -/
def head_walk (ctx : Context) (shape : Shape) (it : Item) (rest : List Item) :
    List OutEvent × Nat :=
  walk_reorderable_or_regroupable_items ctx shape (it :: rest)
    (ReorderableItemKind.fromItem it)
    ((ReorderableItemKind.fromItem it).in_group ctx.config)

/-- The run the walker truncates the sequence to. -/
def head_run (ctx : Context) (shape : Shape) (it : Item) (rest : List Item) :
    List Item :=
  (it :: rest).take (head_walk ctx shape it rest).2

/-- The span the walker replaces: from the first item's start to the
last run item's end. -/
def run_span (it : Item) (run : List Item) : Span :=
  Span.mk it.span.lo (((run.getLast?).map (fun i => i.span.hi)).getD 0)

/-- The item is a use declaration. -/
def isUseItem (it : Item) : Prop :=
  ∃ t : UseTree, it.kind = ItemKind.use t

/-- A context whose extern-crate collaborator always fails, for
concrete evaluations. -/
def c1_ctx : Context :=
  { config := ⟨true, true, GroupImportsTactic.preserve,
      ImportGranularity.preserve, 2021⟩,
    snippet := fun _ => "",
    outOfFileLines := fun _ => false,
    renderUseTree := fun _ _ => .ok "",
    renderExternCrate := fun _ _ => .error .unknown,
    renderMod := fun _ _ => .ok "" }

/-- A wide shape for concrete evaluations. -/
def wide_shape : Shape := ⟨100, 0⟩

/-- A context for the standard grouping scenario. -/
def c4_ctx : Context :=
  { config := ⟨true, true, GroupImportsTactic.stdExternalCrate,
      ImportGranularity.preserve, 2021⟩,
    snippet := fun _ => "",
    outOfFileLines := fun _ => false,
    renderUseTree := fun _ _ => .ok "u",
    renderExternCrate := fun _ _ => .ok "",
    renderMod := fun _ _ => .ok "" }

/-- A use declaration importing the given tree. -/
def use_item_of (t : UseTree) : Item :=
  { kind := .use t, attrs := [], span := ⟨0, 0⟩,
    lineRange := ⟨0, 0, Nat.le.refl⟩ }

/-- The tree of std::fmt. -/
def std_tree : UseTree := .path [.ident "std" none, .ident "fmt" none]

/-- The tree of foo::bar. -/
def ext_tree : UseTree := .path [.ident "foo" none, .ident "bar" none]

/-- The tree of self::baz. -/
def loc_tree : UseTree := .path [.slf, .ident "baz" none]

/-- A context whose snippet provider reports a single newline between
any two spans. -/
def c9_ctx : Context :=
  { config := ⟨true, false, GroupImportsTactic.preserve,
      ImportGranularity.preserve, 2021⟩,
    snippet := fun _ => "\n",
    outOfFileLines := fun _ => false,
    renderUseTree := fun _ _ => .ok "use a;",
    renderExternCrate := fun _ _ => .ok "",
    renderMod := fun _ _ => .ok "" }

/-- A function declaration on line 1. -/
def c9_fn_item : Item :=
  { kind := .fn, attrs := [], span := ⟨0, 10⟩, lineRange := ⟨1, 1, Nat.le.refl⟩ }

/-- A use declaration on line 2, directly after the function. -/
def c9_use_item : Item :=
  { kind := .use (.path [.ident "a" none]), attrs := [], span := ⟨11, 20⟩,
    lineRange := ⟨2, 2, Nat.le.refl⟩ }
/-- A module declaration on line 1. -/
def c8_item1 : Item := { mod_item "a" with lineRange := ⟨1, 1, Nat.le.refl⟩ }

/-- A module declaration on line 2, directly after the first. -/
def c8_item2 : Item := { mod_item "b" with lineRange := ⟨2, 2, Nat.le.refl⟩ }

/-- A module declaration on line 4, after a full blank line. -/
def c8_item3 : Item := { mod_item "c" with lineRange := ⟨4, 4, Nat.le.refl⟩ }

theorem natCmp_swap (a b : Nat) : natCmp b a = (natCmp a b).swap := by
  unfold natCmp
  by_cases h₁ : a < b <;> by_cases h₂ : b < a <;>
    simp [h₁, h₂, Ordering.swap] <;> omega

theorem natCmp_lt_trans {a b c : Nat} (h₁ : natCmp a b = .lt)
    (h₂ : natCmp b c = .lt) : natCmp a c = .lt := by
  unfold natCmp at *
  split at h₁ <;> split at h₂ <;> simp_all
  omega

theorem natCmp_eq_congr {a b : Nat} (h : natCmp a b = .eq) (c : Nat) :
    natCmp a c = natCmp b c := by
  unfold natCmp at *
  have hab : a = b := by
    by_cases hab : a < b <;> by_cases hba : b < a <;> simp_all
    omega
  rw [hab]

theorem charCmp_swap (a b : Char) : charCmp b a = (charCmp a b).swap :=
  natCmp_swap _ _

theorem charCmp_lt_trans {a b c : Char} (h₁ : charCmp a b = .lt)
    (h₂ : charCmp b c = .lt) : charCmp a c = .lt :=
  natCmp_lt_trans h₁ h₂

theorem charCmp_eq_congr {a b : Char} (h : charCmp a b = .eq) (c : Char) :
    charCmp a c = charCmp b c :=
  natCmp_eq_congr h _

theorem listCmp_swap (cmp : α → α → Ordering)
    (hswap : ∀ a b, cmp b a = (cmp a b).swap) :
    ∀ l m, listCmp cmp m l = (listCmp cmp l m).swap := by
  intro l
  induction l with
  | nil => intro m; cases m <;> rfl
  | cons x xs ih =>
    intro m
    cases m with
    | nil => rfl
    | cons y ys =>
      simp only [listCmp, hswap x y]
      cases cmp x y <;> simp [Ordering.swap, ih ys]

theorem cmp_self_eq {cmp : α → α → Ordering}
    (hswap : ∀ a b, cmp b a = (cmp a b).swap) (x : α) : cmp x x = .eq := by
  have h := hswap x x
  cases hc : cmp x x with
  | eq => rfl
  | lt => rw [hc] at h; exact absurd h (by decide)
  | gt => rw [hc] at h; exact absurd h (by decide)

theorem listCmp_refl (cmp : α → α → Ordering)
    (hswap : ∀ a b, cmp b a = (cmp a b).swap) (l : List α) :
    listCmp cmp l l = .eq := by
  induction l with
  | nil => rfl
  | cons x xs ih => simp [listCmp, cmp_self_eq hswap x, ih]

theorem cmp_right_congr {cmp : α → α → Ordering}
    (hcongr : ∀ {a b}, cmp a b = .eq → ∀ c, cmp a c = cmp b c)
    (hswap : ∀ a b, cmp b a = (cmp a b).swap)
    {a b : α} (h : cmp a b = .eq) (c : α) : cmp c a = cmp c b := by
  have h' : cmp b a = .eq := by rw [hswap a b, h]; rfl
  have h2 : cmp b c = cmp a c := hcongr h' c
  calc cmp c a = (cmp a c).swap := hswap a c
    _ = (cmp b c).swap := by rw [h2]
    _ = cmp c b := by rw [hswap c b, Ordering.swap_swap]

theorem listCmp_lt_trans (cmp : α → α → Ordering)
    (htrans : ∀ {a b c}, cmp a b = .lt → cmp b c = .lt → cmp a c = .lt)
    (hcongr : ∀ {a b}, cmp a b = .eq → ∀ c, cmp a c = cmp b c)
    (hswap : ∀ a b, cmp b a = (cmp a b).swap) :
    ∀ {l₁ l₂ l₃ : List α}, listCmp cmp l₁ l₂ = .lt →
      listCmp cmp l₂ l₃ = .lt → listCmp cmp l₁ l₃ = .lt := by
  intro l₁
  induction l₁ with
  | nil =>
    intro l₂ l₃ h₁ h₂
    cases l₂ with
    | nil => exact h₂
    | cons y ys => cases l₃ with
      | nil => simp [listCmp] at h₂
      | cons z zs => rfl
  | cons x xs ih =>
    intro l₂ l₃ h₁ h₂
    cases l₂ with
    | nil => simp [listCmp] at h₁
    | cons y ys =>
      cases l₃ with
      | nil => simp [listCmp] at h₂
      | cons z zs =>
        simp only [listCmp] at h₁ h₂ ⊢
        cases hxy : cmp x y with
        | lt =>
          cases hyz : cmp y z with
          | lt => simp [htrans hxy hyz]
          | eq =>
            have hx : cmp x z = cmp x y := (cmp_right_congr hcongr hswap hyz x).symm
            simp [hx, hxy]
          | gt => rw [hyz] at h₂; exact absurd h₂ (by simp)
        | eq =>
          rw [hxy] at h₁
          cases hyz : cmp y z with
          | lt => simp [hcongr hxy z, hyz]
          | eq =>
            rw [hyz] at h₂
            have hxz : cmp x z = .eq := by rw [hcongr hxy z, hyz]
            simp [hxz, ih h₁ h₂]
          | gt => rw [hyz] at h₂; exact absurd h₂ (by simp)
        | gt => rw [hxy] at h₁; exact absurd h₁ (by simp)

theorem listCmp_eq_congr (cmp : α → α → Ordering)
    (hcongr : ∀ {a b}, cmp a b = .eq → ∀ c, cmp a c = cmp b c) :
    ∀ {l₁ l₂ : List α}, listCmp cmp l₁ l₂ = .eq →
      ∀ l₃, listCmp cmp l₁ l₃ = listCmp cmp l₂ l₃ := by
  intro l₁
  induction l₁ with
  | nil =>
    intro l₂ h l₃
    cases l₂ with
    | nil => rfl
    | cons y ys => simp [listCmp] at h
  | cons x xs ih =>
    intro l₂ h l₃
    cases l₂ with
    | nil => simp [listCmp] at h
    | cons y ys =>
      simp only [listCmp] at h
      cases hxy : cmp x y with
      | lt => rw [hxy] at h; exact absurd h (by simp)
      | gt => rw [hxy] at h; exact absurd h (by simp)
      | eq =>
        rw [hxy] at h
        cases l₃ with
        | nil => rfl
        | cons z zs =>
          simp only [listCmp]
          rw [hcongr hxy z]
          cases cmp y z with
          | eq => exact ih h zs
          | lt => rfl
          | gt => rfl

theorem vchunkCmp_swap (a b : VChunk) : vchunkCmp b a = (vchunkCmp a b).swap := by
  cases a <;> cases b
  · exact natCmp_swap _ _
  · rfl
  · rfl
  · exact charCmp_swap _ _

theorem vchunkCmp_lt_trans {a b c : VChunk} (h₁ : vchunkCmp a b = .lt)
    (h₂ : vchunkCmp b c = .lt) : vchunkCmp a c = .lt := by
  cases a <;> cases b <;> cases c <;> simp_all [vchunkCmp]
  · exact natCmp_lt_trans h₁ h₂
  · exact charCmp_lt_trans h₁ h₂

theorem vchunkCmp_eq_congr {a b : VChunk} (h : vchunkCmp a b = .eq) (c : VChunk) :
    vchunkCmp a c = vchunkCmp b c := by
  cases a <;> cases b <;> simp_all [vchunkCmp]
  · cases c <;> simp [vchunkCmp, natCmp_eq_congr h]
  · cases c <;> simp [vchunkCmp, charCmp_eq_congr h]

theorem strCmp_swap (a b : String) : strCmp b a = (strCmp a b).swap :=
  listCmp_swap charCmp charCmp_swap _ _

theorem strCmp_refl (a : String) : strCmp a a = .eq :=
  listCmp_refl charCmp charCmp_swap _

theorem strCmp_lt_trans {a b c : String} (h₁ : strCmp a b = .lt)
    (h₂ : strCmp b c = .lt) : strCmp a c = .lt :=
  listCmp_lt_trans charCmp (fun h h' => charCmp_lt_trans h h')
    (fun h => charCmp_eq_congr h) charCmp_swap h₁ h₂

theorem strCmp_eq_congr {a b : String} (h : strCmp a b = .eq) (c : String) :
    strCmp a c = strCmp b c :=
  listCmp_eq_congr charCmp (fun h => charCmp_eq_congr h) h _

theorem version_sort_swap (a b : String) : version_sort b a = (version_sort a b).swap :=
  listCmp_swap vchunkCmp vchunkCmp_swap _ _

theorem version_sort_refl (a : String) : version_sort a a = .eq :=
  listCmp_refl vchunkCmp vchunkCmp_swap _

theorem version_sort_lt_trans {a b c : String} (h₁ : version_sort a b = .lt)
    (h₂ : version_sort b c = .lt) : version_sort a c = .lt :=
  listCmp_lt_trans vchunkCmp (fun h h' => vchunkCmp_lt_trans h h')
    (fun h => vchunkCmp_eq_congr h) vchunkCmp_swap h₁ h₂

theorem version_sort_eq_congr {a b : String} (h : version_sort a b = .eq)
    (c : String) : version_sort a c = version_sort b c :=
  listCmp_eq_congr vchunkCmp (fun h => vchunkCmp_eq_congr h) h _

theorem leaves_path (segs : List SimpleSeg) : leaves (.path segs) = [segs] := by
  simp [leaves]

theorem leaves_nested (pre : List SimpleSeg) (ts : List UseTree) :
    leaves (.nested pre ts) = (ts.flatMap leaves).map (fun l => pre ++ l) := by
  rw [leaves]
  congr 1
  rw [List.flatMap]
  congr 1
  rw [List.attach, List.attachWith, List.map_pmap]
  exact List.pmap_eq_map _ _ _ _

theorem edition_cmp_swap (config : Config) (a b : String) :
    edition_cmp config b a = (edition_cmp config a b).swap := by
  unfold edition_cmp
  split
  · exact strCmp_swap a b
  · exact version_sort_swap a b

theorem edition_cmp_refl (config : Config) (a : String) :
    edition_cmp config a a = .eq := by
  unfold edition_cmp
  split
  · exact strCmp_refl a
  · exact version_sort_refl a

theorem edition_cmp_lt_trans {config : Config} {a b c : String}
    (h₁ : edition_cmp config a b = .lt) (h₂ : edition_cmp config b c = .lt) :
    edition_cmp config a c = .lt := by
  unfold edition_cmp at *
  by_cases hle : config.style_edition ≤ 2021 <;> simp only [hle, if_true, if_false, ite_true, ite_false] at *
  · exact strCmp_lt_trans h₁ h₂
  · exact version_sort_lt_trans h₁ h₂

theorem edition_cmp_eq_congr {config : Config} {a b : String}
    (h : edition_cmp config a b = .eq) (c : String) :
    edition_cmp config a c = edition_cmp config b c := by
  unfold edition_cmp at *
  by_cases hle : config.style_edition ≤ 2021 <;> simp only [hle, if_true, if_false, ite_true, ite_false] at *
  · exact strCmp_eq_congr h c
  · exact version_sort_eq_congr h c

theorem edition_cmp_right_congr {config : Config} {a b : String}
    (h : edition_cmp config a b = .eq) (c : String) :
    edition_cmp config c a = edition_cmp config c b :=
  cmp_right_congr (fun h => edition_cmp_eq_congr h) (edition_cmp_swap config) h c

theorem compare_items_mod {config : Config} {a b : Item}
    {a_ident b_ident : String} {ab bb : Bool}
    (ha : a.kind = .mod a_ident ab) (hb : b.kind = .mod b_ident bb) :
    compare_items config a b = edition_cmp config a_ident b_ident := by
  unfold compare_items edition_cmp
  rw [ha, hb]

theorem compare_items_extern_crate {config : Config} {a b : Item}
    {a_name b_name : Option String} {a_ident b_ident : String}
    (ha : a.kind = .externCrate a_name a_ident)
    (hb : b.kind = .externCrate b_name b_ident) :
    compare_items config a b = extern_cmp config a_name a_ident b_name b_ident := by
  unfold compare_items extern_cmp extern_tie_cmp edition_cmp
  rw [ha, hb]

theorem extern_cmp_refl (config : Config) (n : Option String) (i : String) :
    extern_cmp config n i n i = .eq := by
  unfold extern_cmp extern_tie_cmp
  simp only [edition_cmp_refl, ne_eq, not_true_eq_false, if_false, ite_false]
  cases n with
  | none => rfl
  | some s => rfl

theorem extern_cmp_swap (config : Config) (an bn : Option String) (ai bi : String) :
    extern_cmp config bn bi an ai = (extern_cmp config an ai bn bi).swap := by
  unfold extern_cmp extern_tie_cmp
  have hsw := edition_cmp_swap config (an.getD ai) (bn.getD bi)
  cases hr : edition_cmp config (an.getD ai) (bn.getD bi) with
  | lt =>
    rw [hr] at hsw
    have hsw' : edition_cmp config (bn.getD bi) (an.getD ai) = .gt := hsw
    simp [hsw', hr, Ordering.swap]
  | gt =>
    rw [hr] at hsw
    have hsw' : edition_cmp config (bn.getD bi) (an.getD ai) = .lt := hsw
    simp [hsw', hr, Ordering.swap]
  | eq =>
    rw [hr] at hsw
    have hsw' : edition_cmp config (bn.getD bi) (an.getD ai) = .eq := hsw
    simp only [hsw', hr, ne_eq, not_true_eq_false, if_false, ite_false]
    cases an <;> cases bn <;> simp [Ordering.swap]
    exact edition_cmp_swap config ai bi

theorem extern_cmp_lt_trans {config : Config} {an bn cn : Option String}
    {ai bi ci : String}
    (h₁ : extern_cmp config an ai bn bi = .lt)
    (h₂ : extern_cmp config bn bi cn ci = .lt) :
    extern_cmp config an ai cn ci = .lt := by
  unfold extern_cmp extern_tie_cmp at *
  cases hr1 : edition_cmp config (an.getD ai) (bn.getD bi) <;> rw [hr1] at h₁ <;>
    cases hr2 : edition_cmp config (bn.getD bi) (cn.getD ci) <;> rw [hr2] at h₂ <;>
    simp only [ne_eq, not_true_eq_false, if_false, ite_false, reduceCtorEq,
      not_false_eq_true, if_true, ite_true] at h₁ h₂
  case lt.lt =>
    simp [edition_cmp_lt_trans hr1 hr2]
  case lt.eq =>
    have hac : edition_cmp config (an.getD ai) (cn.getD ci) = .lt := by
      rw [← edition_cmp_right_congr hr2 (an.getD ai)]
      exact hr1
    simp [hac]
  case eq.lt =>
    have hac : edition_cmp config (an.getD ai) (cn.getD ci) = .lt := by
      rw [edition_cmp_eq_congr hr1 (cn.getD ci)]
      exact hr2
    simp [hac]
  case eq.eq =>
    have hac : edition_cmp config (an.getD ai) (cn.getD ci) = .eq := by
      rw [edition_cmp_eq_congr hr1 (cn.getD ci)]
      exact hr2
    simp only [hac, ne_eq, not_true_eq_false, if_false, ite_false]
    cases an <;> cases bn <;> cases cn <;> simp_all
    exact edition_cmp_lt_trans h₁ h₂

theorem extern_cmp_eq_trans {config : Config} {an bn cn : Option String}
    {ai bi ci : String}
    (h₁ : extern_cmp config an ai bn bi = .eq)
    (h₂ : extern_cmp config bn bi cn ci = .eq) :
    extern_cmp config an ai cn ci = .eq := by
  unfold extern_cmp extern_tie_cmp at *
  cases hr1 : edition_cmp config (an.getD ai) (bn.getD bi) <;> rw [hr1] at h₁ <;>
    cases hr2 : edition_cmp config (bn.getD bi) (cn.getD ci) <;> rw [hr2] at h₂ <;>
    simp only [ne_eq, not_true_eq_false, if_false, ite_false, reduceCtorEq,
      not_false_eq_true, if_true, ite_true] at h₁ h₂
  have hac : edition_cmp config (an.getD ai) (cn.getD ci) = .eq := by
    rw [edition_cmp_eq_congr hr1 (cn.getD ci)]
    exact hr2
  simp only [hac, ne_eq, not_true_eq_false, if_false, ite_false]
  cases an <;> cases bn <;> cases cn <;> simp_all
  rw [edition_cmp_eq_congr h₁ ci]
  exact h₂

/-- C3: classification is a pure function of the syntactic kind and the
attribute markers; a skip or implicit-macro-import marker forces `other`
regardless of kind, extern crates classify as `externCrate`, modules as
`mod` exactly when they are forward declarations referencing an external
file, use declarations as `use`, everything else as `other`. -/
theorem c3_classification_matches_spec (item : Item) :
    ReorderableItemKind.fromItem item = classifySpec item := by
  unfold ReorderableItemKind.fromItem classifySpec is_mod_decl
  by_cases h1 : contains_macro_use_attr item = true
  · simp [h1]
  · by_cases h2 : contains_skip item.attrs = true
    · simp [h1, h2]
    · simp only [h1, h2, Bool.or_false, Bool.false_or, if_false, ite_false,
        Bool.or_eq_true, false_or, or_self, if_neg, not_false_eq_true]
      cases hk : item.kind
      all_goals try rfl
      rename_i ident inlineBody
      cases inlineBody <;> rfl

/-- C5: for extern-crate pairs, `compare_items` orders by origin name
under the edition-conditioned policy; on equal origin names a declaration
without a rename sorts strictly before one with a rename, and two renamed
declarations compare by alias name under the same policy. -/
theorem c5_extern_crate_ordering (config : Config) (a b : Item)
    (a_name b_name : Option String) (a_ident b_ident : String)
    (ha : a.kind = .externCrate a_name a_ident)
    (hb : b.kind = .externCrate b_name b_ident) :
    (edition_cmp config (a_name.getD a_ident) (b_name.getD b_ident) ≠ .eq →
      compare_items config a b =
        edition_cmp config (a_name.getD a_ident) (b_name.getD b_ident))
    ∧ (edition_cmp config (a_name.getD a_ident) (b_name.getD b_ident) = .eq →
        (a_name = none → b_name ≠ none → compare_items config a b = .lt)
        ∧ (a_name ≠ none → b_name = none → compare_items config a b = .gt)
        ∧ (a_name ≠ none → b_name ≠ none →
            compare_items config a b = edition_cmp config a_ident b_ident)) := by
  have hce : compare_items config a b =
      extern_cmp config a_name a_ident b_name b_ident :=
    compare_items_extern_crate ha hb
  constructor
  · intro hne
    rw [hce]
    unfold extern_cmp
    simp [hne]
  · intro heq
    refine ⟨?_, ?_, ?_⟩
    · intro han hbn
      rw [hce]
      unfold extern_cmp extern_tie_cmp
      simp only [heq, ne_eq, not_true_eq_false, if_false, ite_false]
      cases b_name with
      | none => exact absurd rfl hbn
      | some s => subst han; rfl
    · intro han hbn
      rw [hce]
      unfold extern_cmp extern_tie_cmp
      simp only [heq, ne_eq, not_true_eq_false, if_false, ite_false]
      cases a_name with
      | none => exact absurd rfl han
      | some s => subst hbn; rfl
    · intro han hbn
      rw [hce]
      unfold extern_cmp extern_tie_cmp
      simp only [heq, ne_eq, not_true_eq_false, if_false, ite_false]
      cases a_name with
      | none => exact absurd rfl han
      | some s =>
        cases b_name with
        | none => exact absurd rfl hbn
        | some t => rfl

theorem c5_witness :
    edition_cmp legacy_config ((none : Option String).getD "foo")
        ((some "foo").getD "bar") = .eq ∧
    compare_items legacy_config (ec_item none "foo") (ec_item (some "foo") "bar") = .lt :=
  ⟨by decide,
    ((c5_extern_crate_ordering legacy_config (ec_item none "foo")
        (ec_item (some "foo") "bar") none (some "foo") "foo" "bar" rfl rfl).2
      (by decide)).1 rfl (by decide)⟩

/-- C6: for module pairs, `compare_items` compares the declared names
with strict code-point order at or below the legacy edition threshold and
natural version-aware order above it; sorting the names item2, item10,
item1 yields item1, item10, item2 under a legacy edition and item1,
item2, item10 under a modern edition. -/
theorem c6_module_ordering_edition :
    (∀ (config : Config) (a b : Item) (a_ident b_ident : String) (ab bb : Bool),
        a.kind = .mod a_ident ab → b.kind = .mod b_ident bb →
        compare_items config a b = edition_cmp config a_ident b_ident)
    ∧ (sort_items_by_compare legacy_config
        [mod_item "item2", mod_item "item10", mod_item "item1"]).map item_mod_name =
        ["item1", "item10", "item2"]
    ∧ (sort_items_by_compare modern_config
        [mod_item "item2", mod_item "item10", mod_item "item1"]).map item_mod_name =
        ["item1", "item2", "item10"] := by
  refine ⟨?_, ?_, ?_⟩
  · intro config a b a_ident b_ident ab bb ha hb
    exact compare_items_mod ha hb
  · decide
  · decide

theorem c6_witness :
    (mod_item "item2").kind = ItemKind.mod "item2" false ∧
    compare_items legacy_config (mod_item "item2") (mod_item "item10") =
      edition_cmp legacy_config "item2" "item10" :=
  ⟨rfl, c6_module_ordering_edition.1 legacy_config (mod_item "item2")
    (mod_item "item10") "item2" "item10" false false rfl rfl⟩

/-- C7: on same-kind pairs (both modules or both extern crates) and any
fixed configuration, `compare_items` is a strict weak ordering:
reflexively equal, consistent inverses under argument swap, and
transitive in both the strict and the equal sense. -/
theorem c7_compare_strict_weak_order (config : Config) (a b c : Item)
    (h : (isModuleItem a ∧ isModuleItem b ∧ isModuleItem c) ∨
         (isExternCrateItem a ∧ isExternCrateItem b ∧ isExternCrateItem c)) :
    compare_items config a a = .eq
    ∧ compare_items config b a = (compare_items config a b).swap
    ∧ (compare_items config a b = .lt → compare_items config b c = .lt →
        compare_items config a c = .lt)
    ∧ (compare_items config a b = .eq → compare_items config b c = .eq →
        compare_items config a c = .eq) := by
  rcases h with ⟨⟨na, xa, hka⟩, ⟨nb, xb, hkb⟩, ⟨nc, xc, hkc⟩⟩ |
    ⟨⟨na, ia, hka⟩, ⟨nb, ib, hkb⟩, ⟨nc, ic, hkc⟩⟩
  · refine ⟨?_, ?_, ?_, ?_⟩
    · rw [compare_items_mod hka hka]
      exact edition_cmp_refl config na
    · rw [compare_items_mod hkb hka, compare_items_mod hka hkb]
      exact edition_cmp_swap config na nb
    · intro h1 h2
      rw [compare_items_mod hka hkb] at h1
      rw [compare_items_mod hkb hkc] at h2
      rw [compare_items_mod hka hkc]
      exact edition_cmp_lt_trans h1 h2
    · intro h1 h2
      rw [compare_items_mod hka hkb] at h1
      rw [compare_items_mod hkb hkc] at h2
      rw [compare_items_mod hka hkc]
      rw [edition_cmp_eq_congr h1 nc]
      exact h2
  · refine ⟨?_, ?_, ?_, ?_⟩
    · rw [compare_items_extern_crate hka hka]
      exact extern_cmp_refl config na ia
    · rw [compare_items_extern_crate hkb hka, compare_items_extern_crate hka hkb]
      exact extern_cmp_swap config na nb ia ib
    · intro h1 h2
      rw [compare_items_extern_crate hka hkb] at h1
      rw [compare_items_extern_crate hkb hkc] at h2
      rw [compare_items_extern_crate hka hkc]
      exact extern_cmp_lt_trans h1 h2
    · intro h1 h2
      rw [compare_items_extern_crate hka hkb] at h1
      rw [compare_items_extern_crate hkb hkc] at h2
      rw [compare_items_extern_crate hka hkc]
      exact extern_cmp_eq_trans h1 h2

theorem c7_witness :
    compare_items legacy_config (mod_item "alpha") (mod_item "alpha") = .eq :=
  (c7_compare_strict_weak_order legacy_config (mod_item "alpha")
      (mod_item "alpha") (mod_item "alpha")
      (Or.inl ⟨⟨"alpha", false, rfl⟩, ⟨"alpha", false, rfl⟩, ⟨"alpha", false, rfl⟩⟩)).1

theorem group_imports_go_eq (uts : List UseTree) :
    ∀ s e l, group_imports_go uts s e l =
      [s ++ uts.filter is_std_root, e ++ uts.filter is_external_root,
       l ++ uts.filter is_local_root] := by
  induction uts with
  | nil => intro s e l; simp [group_imports_go]
  | cons ut rest ih =>
    intro s e l
    cases ut with
    | path segs =>
      cases segs with
      | nil =>
        simp [group_imports_go, ih, List.filter_cons, is_std_root,
          is_local_root, is_external_root]
      | cons sg tl =>
        cases sg with
        | ident id rn =>
          by_cases hid : id = "std" ∨ id = "alloc" ∨ id = "core"
          · have hstd : is_std_root (.path (.ident id rn :: tl)) = true := by
              simp [is_std_root]
              rcases hid with h | h | h <;> simp [h]
            simp [group_imports_go, hid, ih, List.filter_cons, hstd,
              is_local_root, is_external_root]
          · have hstd : is_std_root (.path (.ident id rn :: tl)) = false := by
              simp [is_std_root]
              push_neg at hid
              tauto
            simp [group_imports_go, hid, ih, List.filter_cons, hstd,
              is_local_root, is_external_root]
        | slf =>
          simp [group_imports_go, ih, List.filter_cons, is_std_root,
            is_local_root, is_external_root]
        | sup =>
          simp [group_imports_go, ih, List.filter_cons, is_std_root,
            is_local_root, is_external_root]
        | crateRoot =>
          simp [group_imports_go, ih, List.filter_cons, is_std_root,
            is_local_root, is_external_root]
        | glob =>
          simp [group_imports_go, ih, List.filter_cons, is_std_root,
            is_local_root, is_external_root]
    | nested pre ts =>
      cases pre with
      | nil =>
        simp [group_imports_go, ih, List.filter_cons, is_std_root,
          is_local_root, is_external_root]
      | cons sg tl =>
        cases sg with
        | ident id rn =>
          by_cases hid : id = "std" ∨ id = "alloc" ∨ id = "core"
          · have hstd : is_std_root (.nested (.ident id rn :: tl) ts) = true := by
              simp [is_std_root]
              rcases hid with h | h | h <;> simp [h]
            simp [group_imports_go, hid, ih, List.filter_cons, hstd,
              is_local_root, is_external_root]
          · have hstd : is_std_root (.nested (.ident id rn :: tl) ts) = false := by
              simp [is_std_root]
              push_neg at hid
              tauto
            simp [group_imports_go, hid, ih, List.filter_cons, hstd,
              is_local_root, is_external_root]
        | slf =>
          simp [group_imports_go, ih, List.filter_cons, is_std_root,
            is_local_root, is_external_root]
        | sup =>
          simp [group_imports_go, ih, List.filter_cons, is_std_root,
            is_local_root, is_external_root]
        | crateRoot =>
          simp [group_imports_go, ih, List.filter_cons, is_std_root,
            is_local_root, is_external_root]
        | glob =>
          simp [group_imports_go, ih, List.filter_cons, is_std_root,
            is_local_root, is_external_root]

theorem group_imports_eq_filters (uts : List UseTree) :
    group_imports uts =
      [uts.filter is_std_root, uts.filter is_external_root,
       uts.filter is_local_root] := by
  unfold group_imports
  simpa using group_imports_go_eq uts [] [] []

/-- The leaves of a list of single-path trees are exactly the paths. -/
theorem leaves_map_path (ls : List (List SimpleSeg)) :
    (ls.map UseTree.path).flatMap leaves = ls := by
  induction ls with
  | nil => rfl
  | cons x rest ih => simp [List.flatMap_cons, leaves_path, ih]

/-- Standard-rooted and local-rooted are mutually exclusive. -/
theorem not_std_and_local (ut : UseTree) :
    ¬(is_std_root ut = true ∧ is_local_root ut = true) := by
  cases ut with
  | path segs =>
    cases segs with
    | nil => simp [is_std_root, is_local_root]
    | cons s tl => cases s <;> simp [is_std_root, is_local_root]
  | nested pre ts =>
    cases pre with
    | nil => simp [is_std_root, is_local_root]
    | cons s tl => cases s <;> simp [is_std_root, is_local_root]

/-- Grouping into the three buckets only permutes the run. -/
theorem group_imports_join_perm (uts : List UseTree) :
    ((group_imports uts).flatten).Perm uts := by
  rw [group_imports_eq_filters]
  induction uts with
  | nil => simp
  | cons x rest ih =>
    simp only [List.flatten_cons, List.flatten_nil, List.append_nil] at ih ⊢
    by_cases hs : is_std_root x = true
    · have hl : is_local_root x = false := by
        rcases Bool.eq_false_or_eq_true (is_local_root x) with h | h
        · exact absurd ⟨hs, h⟩ (not_std_and_local x)
        · exact h
      have he : is_external_root x = false := by
        simp [is_external_root, hs]
      simp only [List.filter_cons, hs, he, hl, if_true, if_false, ite_true,
        ite_false, Bool.false_eq_true, List.cons_append]
      exact (ih).cons x
    · have hs' : is_std_root x = false := by
        simpa using hs
      by_cases hl : is_local_root x = true
      · have he : is_external_root x = false := by
          simp [is_external_root, hl]
        simp only [List.filter_cons, hs', he, hl, if_true, if_false, ite_true,
          ite_false, Bool.false_eq_true, List.cons_append]
        have step1 : (rest.filter is_external_root ++ x :: rest.filter is_local_root).Perm
            (x :: (rest.filter is_external_root ++ rest.filter is_local_root)) :=
          List.perm_middle
        refine (List.Perm.append_left _ step1).trans ?_
        exact List.perm_middle.trans (ih.cons x)
      · have hl' : is_local_root x = false := by
          simpa using hl
        have he : is_external_root x = true := by
          simp [is_external_root, hs', hl']
        simp only [List.filter_cons, hs', he, hl', if_true, if_false, ite_true,
          ite_false, Bool.false_eq_true, List.cons_append]
        refine List.Perm.trans ?_ (ih.cons x)
        exact List.perm_middle

theorem crate_split_spec : ∀ l p r, crate_split l = some (p, r) → p ++ r = l := by
  intro l p r h
  cases l with
  | nil => simp [crate_split] at h
  | cons x xs =>
    simp only [crate_split] at h
    injection h with h'
    injection h' with h1 h2
    rw [← h1, ← h2]
    exact List.take_append_drop 1 (x :: xs)

theorem module_split_spec : ∀ l p r, module_split l = some (p, r) → p ++ r = l := by
  intro l p r h
  unfold module_split at h
  split at h
  · injection h with h'
    injection h' with h1 h2
    rw [← h1, ← h2]
    exact List.take_append_drop _ l
  · exact absurd h (by simp)

/-- The leaves of one merged group are exactly the leaves of the run
that carry its key. -/
theorem mergeBySplit_group_leaves
    (split : List SimpleSeg → Option (List SimpleSeg × List SimpleSeg))
    (hsplit : ∀ l p r, split l = some (p, r) → p ++ r = l)
    (ls : List (List SimpleSeg)) (p : List SimpleSeg) :
    leaves (UseTree.nested p (ls.filterMap (fun l =>
      match split l with
      | some (q, r) => if q = p then some (UseTree.path r) else none
      | none => none))) =
    ls.filter (fun l => decide (split_key split l = some p)) := by
  rw [leaves_nested]
  induction ls with
  | nil => simp
  | cons x rest ih =>
    simp only [List.filterMap_cons, List.filter_cons]
    cases hx : split x with
    | none =>
      have hk : split_key split x = none := by simp [split_key, hx]
      simp [hk, ih]
    | some pr =>
      obtain ⟨q, r⟩ := pr
      by_cases hq : q = p
      · subst hq
        have hk : split_key split x = some q := by simp [split_key, hx]
        have hqr : q ++ r = x := hsplit x q r hx
        simp [List.flatMap_cons, leaves_path, hk, hqr, ih]
      · have hk : split_key split x = some q := by simp [split_key, hx]
        simp [hq, hk, ih]

/-- Splitting a list into per-key filters (over a duplicate-free key
list covering every key that occurs) plus the key-less rest is a
permutation of the list. -/
theorem filter_partition_perm {κ : Type} [DecidableEq κ] {α : Type}
    (f : α → Option κ) :
    ∀ (ks : List κ), ks.Nodup → ∀ (l : List α),
      (∀ x ∈ l, ∀ k, f x = some k → k ∈ ks) →
      ((ks.map (fun k => l.filter (fun x => decide (f x = some k)))).flatten ++
        l.filter (fun x => (f x).isNone)).Perm l := by
  intro ks
  induction ks with
  | nil =>
    intro _ l hcov
    simp only [List.map_nil, List.flatten_nil, List.nil_append]
    have hall : ∀ x ∈ l, (f x).isNone = true := by
      intro x hx
      cases hfx : f x with
      | none => rfl
      | some k => exact absurd (hcov x hx k hfx) (List.not_mem_nil k)
    rw [List.filter_eq_self.mpr hall]
  | cons k ks' ih =>
    intro hnd l hcov
    have hnd' : ks'.Nodup := (List.nodup_cons.mp hnd).2
    have hknotin : k ∉ ks' := (List.nodup_cons.mp hnd).1
    have hcov' : ∀ x ∈ l.filter (fun x => !decide (f x = some k)),
        ∀ k', f x = some k' → k' ∈ ks' := by
      intro x hx k' hfx
      have hxl : x ∈ l := List.mem_of_mem_filter hx
      rcases List.mem_cons.mp (hcov x hxl k' hfx) with h | h
      · subst h
        have := List.of_mem_filter hx
        simp [hfx] at this
      · exact h
    have hfilters : ∀ k' ∈ ks',
        (l.filter (fun x => !decide (f x = some k))).filter
            (fun x => decide (f x = some k')) =
          l.filter (fun x => decide (f x = some k')) := by
      intro k' hk'
      rw [List.filter_filter]
      apply List.filter_congr
      intro x hx
      by_cases hp : f x = some k'
      · have hkk : ¬k' = k := fun h => hknotin (h ▸ hk')
        simp [hp, hkk]
      · simp [hp]
    have hnone :
        (l.filter (fun x => !decide (f x = some k))).filter
            (fun x => (f x).isNone) =
          l.filter (fun x => (f x).isNone) := by
      rw [List.filter_filter]
      apply List.filter_congr
      intro x hx
      cases hfx : f x <;> simp [hfx]
    have hperm' := ih hnd' (l.filter (fun x => !decide (f x = some k))) hcov'
    simp only [List.map_cons, List.flatten_cons]
    have hmap :
        (ks'.map (fun k' => l.filter (fun x => decide (f x = some k')))) =
        (ks'.map (fun k' =>
          (l.filter (fun x => !decide (f x = some k))).filter
            (fun x => decide (f x = some k')))) := by
      apply List.map_congr_left
      intro k' hk'
      exact (hfilters k' hk').symm
    rw [List.append_assoc, hmap, ← hnone]
    refine (List.Perm.append_left _ hperm').trans ?_
    exact List.filter_append_perm _ l

/-- Merging leaves by key neither loses nor duplicates a leaf. -/
theorem mergeBySplit_leaves_perm
    (split : List SimpleSeg → Option (List SimpleSeg × List SimpleSeg))
    (hsplit : ∀ l p r, split l = some (p, r) → p ++ r = l)
    (ls : List (List SimpleSeg)) :
    ((mergeBySplit split ls).flatMap leaves).Perm ls := by
  unfold mergeBySplit
  rw [List.flatMap_append, leaves_map_path]
  have hgrouped :
      (((ls.filterMap (split_key split)).dedup.map (fun p =>
        UseTree.nested p (ls.filterMap (fun l =>
          match split l with
          | some (q, r) => if q = p then some (UseTree.path r) else none
          | none => none)))).flatMap leaves) =
      ((ls.filterMap (split_key split)).dedup.map (fun p =>
        ls.filter (fun l => decide (split_key split l = some p)))).flatten := by
    rw [List.flatMap_map, List.flatMap_def]
    congr 1
    apply List.map_congr_left
    intro p hp
    exact mergeBySplit_group_leaves split hsplit ls p
  rw [hgrouped]
  have hpart := filter_partition_perm (split_key split)
    (ls.filterMap (split_key split)).dedup (List.nodup_dedup _) ls
    (by
      intro x hx k hk
      exact List.mem_dedup.mpr (List.mem_filterMap.mpr ⟨x, hx, hk⟩))
  exact (List.perm_append_comm).trans hpart

theorem normalize_leaves_perm (uts : List UseTree) (g : ImportGranularity) :
    ((normalize_use_trees_with_granularity uts g).flatMap leaves).Perm
      (uts.flatMap leaves) := by
  cases g with
  | preserve => exact List.Perm.refl _
  | item =>
    unfold normalize_use_trees_with_granularity
    rw [leaves_map_path]
  | crate =>
    exact mergeBySplit_leaves_perm crate_split crate_split_spec _
  | module =>
    exact mergeBySplit_leaves_perm module_split module_split_spec _
  | one =>
    unfold normalize_use_trees_with_granularity
    simp [List.flatMap_cons, leaves_nested]

theorem map_sort_flatten_perm (gs : List (List UseTree)) :
    ((gs.map sort_use_trees).flatten).Perm gs.flatten := by
  induction gs with
  | nil => exact List.Perm.refl _
  | cons g rest ih =>
    simp only [List.map_cons, List.flatten_cons]
    exact (List.perm_insertionSort _ g).append ih

/-- C2: for every configuration, normalizing, regrouping and sorting an
entire import run preserves the multiset of fully-qualified leaf paths. -/
theorem c2_leaf_path_multiset_preserved (config : Config) (uts : List UseTree) :
    leaf_multiset ((regroup_use_trees config uts).flatten) = leaf_multiset uts := by
  unfold leaf_multiset regroup_use_trees
  rw [Multiset.coe_eq_coe]
  have h1 :
      ((match config.group_imports with
        | .preserve | .one =>
          [normalize_use_trees_with_granularity uts config.imports_granularity]
        | .stdExternalCrate =>
          group_imports (normalize_use_trees_with_granularity uts
            config.imports_granularity)).flatten).Perm
      (normalize_use_trees_with_granularity uts config.imports_granularity) := by
    cases config.group_imports with
    | preserve => simp
    | one => simp
    | stdExternalCrate => exact group_imports_join_perm _
  have h2 :
      ((if config.reorder_imports then
          (match config.group_imports with
            | .preserve | .one =>
              [normalize_use_trees_with_granularity uts config.imports_granularity]
            | .stdExternalCrate =>
              group_imports (normalize_use_trees_with_granularity uts
                config.imports_granularity)).map sort_use_trees
        else
          (match config.group_imports with
            | .preserve | .one =>
              [normalize_use_trees_with_granularity uts config.imports_granularity]
            | .stdExternalCrate =>
              group_imports (normalize_use_trees_with_granularity uts
                config.imports_granularity))).flatten).Perm
      ((match config.group_imports with
        | .preserve | .one =>
          [normalize_use_trees_with_granularity uts config.imports_granularity]
        | .stdExternalCrate =>
          group_imports (normalize_use_trees_with_granularity uts
            config.imports_granularity)).flatten) := by
    by_cases hr : config.reorder_imports = true
    · simp only [hr, if_true, ite_true]
      exact map_sort_flatten_perm _
    · simp only [hr, if_false, ite_false, Bool.false_eq_true]
      exact List.Perm.refl _
  exact ((h2.trans h1).flatMap_right leaves).trans
    (normalize_leaves_perm uts config.imports_granularity)

theorem walk_snd_eq_run_len (ctx : Context) (shape : Shape) (it : Item)
    (rest : List Item) (item_kind : ReorderableItemKind) (in_group : Bool) :
    (walk_reorderable_or_regroupable_items ctx shape (it :: rest) item_kind
      in_group).2 = walk_run_len item_kind in_group it.lineRange (it :: rest) := by
  simp only [walk_reorderable_or_regroupable_items]

theorem walk_run_len_head_pos (it : Item) (rest : List Item)
    (in_group : Bool) :
    1 ≤ walk_run_len (ReorderableItemKind.fromItem it) in_group
      it.lineRange (it :: rest) := by
  unfold walk_run_len
  have hsame : (ReorderableItemKind.fromItem it).is_same_item_kind it = true := by
    unfold ReorderableItemKind.is_same_item_kind
    cases ReorderableItemKind.fromItem it <;> rfl
  have hlt : decide (it.lineRange.lo < it.lineRange.hi + 2) = true := by
    have := it.lineRange.lo_le_hi
    simp
    omega
  simp [hsame, hlt]

/-- C10: on a non-empty slice whose kind is taken from its own head, the
walker always consumes at least one declaration, so the driver's loop
strictly shrinks the remaining slice. -/
theorem c10_walk_progress (ctx : Context) (shape : Shape) (it : Item)
    (rest : List Item) (in_group : Bool) :
    1 ≤ (walk_reorderable_or_regroupable_items ctx shape (it :: rest)
        (ReorderableItemKind.fromItem it) in_group).2
    ∧ ((it :: rest).drop (walk_reorderable_or_regroupable_items ctx shape
        (it :: rest) (ReorderableItemKind.fromItem it) in_group).2).length <
      (it :: rest).length := by
  have h1 := walk_run_len_head_pos it rest in_group
  have h2 := walk_snd_eq_run_len ctx shape it rest
    (ReorderableItemKind.fromItem it) in_group
  constructor
  · rw [h2]
    exact h1
  · rw [List.length_drop, h2]
    simp only [List.length_cons]
    omega

/-- A full blank line between any consecutive pair of the slice caps the
accepted run at that pair, wherever the pair sits. -/
theorem walk_run_len_gap_bound (k : ReorderableItemKind) :
    ∀ (items : List Item) (last : LineRange) (i : Nat) (prev nxt : Item),
      items.get? i = some prev → items.get? (i + 1) = some nxt →
      prev.lineRange.hi + 2 ≤ nxt.lineRange.lo →
      walk_run_len k true last items ≤ i + 1 := by
  intro items
  induction items with
  | nil =>
    intro last i prev nxt h1 h2 hgap
    simp only [walk_run_len]
    omega
  | cons x rest ih =>
    intro last i prev nxt h1 h2 hgap
    unfold walk_run_len
    split
    · cases i with
      | zero =>
        rw [List.get?_cons_zero] at h1
        injection h1 with h1
        rw [List.get?_cons_succ] at h2
        cases rest with
        | nil =>
          rw [List.get?_nil] at h2
          exact absurd h2 (by simp)
        | cons y rest2 =>
          rw [List.get?_cons_zero] at h2
          injection h2 with h2
          have hgap2 : x.lineRange.hi + 2 ≤ y.lineRange.lo := by
            rw [h1, h2]
            exact hgap
          have hz : walk_run_len k true x.lineRange (y :: rest2) = 0 := by
            unfold walk_run_len
            have hd : decide (y.lineRange.lo < x.lineRange.hi + 2) = false := by
              simp only [decide_eq_false_iff_not]
              omega
            simp [hd]
          rw [hz]
      | succ j =>
        rw [List.get?_cons_succ] at h1 h2
        have := ih x.lineRange j prev nxt h1 h2 hgap
        omega
    · omega

/-- A prefix whose declarations all match the kind, whose head starts
close to the incoming range, and whose consecutive pairs are all free of
blank lines, is accumulated whole. -/
theorem walk_run_len_reaches (k : ReorderableItemKind) :
    ∀ (items : List Item) (last : LineRange) (n : Nat),
      n ≤ items.length →
      (∀ j x, j < n → items.get? j = some x → k.is_same_item_kind x = true) →
      (∀ x, items.get? 0 = some x → 1 ≤ n → x.lineRange.lo < last.hi + 2) →
      (∀ j x y, j + 1 < n → items.get? j = some x → items.get? (j + 1) = some y →
        y.lineRange.lo < x.lineRange.hi + 2) →
      n ≤ walk_run_len k true last items := by
  intro items
  induction items with
  | nil =>
    intro last n hn _ _ _
    simp only [walk_run_len]
    simpa using hn
  | cons x rest ih =>
    intro last n hn hkind hfirst hpairs
    cases n with
    | zero => exact Nat.zero_le _
    | succ m =>
      have hkx : k.is_same_item_kind x = true :=
        hkind 0 x (by omega) List.get?_cons_zero
      have hfx : x.lineRange.lo < last.hi + 2 :=
        hfirst x List.get?_cons_zero (by omega)
      unfold walk_run_len
      have hcond : (k.is_same_item_kind x &&
          (!true || decide (x.lineRange.lo < last.hi + 2))) = true := by
        simp [hkx, hfx]
      rw [if_pos hcond]
      have hm : m ≤ walk_run_len k true x.lineRange rest := by
        apply ih x.lineRange m
        · simpa using hn
        · intro j y hj hy
          exact hkind (j + 1) y (by omega)
            (by rw [List.get?_cons_succ]; exact hy)
        · intro y hy hm1
          exact hpairs 0 x y (by omega) List.get?_cons_zero
            (by rw [List.get?_cons_succ]; exact hy)
        · intro j y z hj hy hz
          exact hpairs (j + 1) y z (by omega)
            (by rw [List.get?_cons_succ]; exact hy)
            (by rw [List.get?_cons_succ]; exact hz)
      omega

/-- With the group-boundary check inactive the accepted run is exactly
the maximal same-kind prefix: line ranges are never consulted. -/
theorem walk_run_len_no_group (k : ReorderableItemKind) :
    ∀ (items : List Item) (last : LineRange),
      walk_run_len k false last items =
        (items.takeWhile (fun it => k.is_same_item_kind it)).length := by
  intro items
  induction items with
  | nil => intro last; rfl
  | cons x rest ih =>
    intro last
    unfold walk_run_len
    rw [List.takeWhile_cons]
    by_cases h : k.is_same_item_kind x = true
    · simp only [h, Bool.not_false, Bool.true_or, Bool.and_true, if_true,
        ite_true, List.length_cons, ih]
      omega
    · have h' : k.is_same_item_kind x = false := by simpa using h
      simp [h']

/-- C8: module and extern-crate runs always apply the group-boundary
check, import runs apply it exactly under the preserve grouping.  With
the check active, the run extends past a declaration only while the next
declaration's line range starts less than two lines after the previous
one ends: a full blank line at any consecutive pair — first or mid-run —
caps the run at that pair, and a prefix whose pairs are all same-kind and
free of blank lines is accumulated whole.  With the check inactive
(imports under StdExternalCrate or One) the run is the maximal same-kind
prefix and blank lines are ignored at every position. -/
theorem c8_blank_line_bounds_runs :
    (∀ config : Config,
      ReorderableItemKind.mod.in_group config = true
      ∧ ReorderableItemKind.externCrate.in_group config = true
      ∧ ReorderableItemKind.use.in_group config =
          (config.group_imports == GroupImportsTactic.preserve))
    ∧ (∀ (k : ReorderableItemKind) (last : LineRange) (items : List Item)
        (i : Nat) (prev nxt : Item),
        items.get? i = some prev → items.get? (i + 1) = some nxt →
        prev.lineRange.hi + 2 ≤ nxt.lineRange.lo →
        walk_run_len k true last items ≤ i + 1)
    ∧ (∀ (k : ReorderableItemKind) (last : LineRange) (items : List Item)
        (n : Nat),
        n ≤ items.length →
        (∀ j x, j < n → items.get? j = some x → k.is_same_item_kind x = true) →
        (∀ x, items.get? 0 = some x → 1 ≤ n → x.lineRange.lo < last.hi + 2) →
        (∀ j x y, j + 1 < n → items.get? j = some x →
          items.get? (j + 1) = some y →
          y.lineRange.lo < x.lineRange.hi + 2) →
        n ≤ walk_run_len k true last items)
    ∧ (∀ (k : ReorderableItemKind) (last : LineRange) (items : List Item),
        walk_run_len k false last items =
          (items.takeWhile (fun it => k.is_same_item_kind it)).length) := by
  refine ⟨?_, ?_, ?_, ?_⟩
  · intro config
    exact ⟨rfl, rfl, rfl⟩
  · intro k last items i prev nxt h1 h2 h3
    exact walk_run_len_gap_bound k items last i prev nxt h1 h2 h3
  · intro k last items n hn h1 h2 h3
    exact walk_run_len_reaches k items last n hn h1 h2 h3
  · intro k last items
    exact walk_run_len_no_group k items last

theorem c8_witness :
    ([c8_item1, c8_item2, c8_item3].get? 1 = some c8_item2) ∧
    ([c8_item1, c8_item2, c8_item3].get? 2 = some c8_item3) ∧
    c8_item2.lineRange.hi + 2 ≤ c8_item3.lineRange.lo ∧
    walk_run_len (ReorderableItemKind.fromItem c8_item1) true
      c8_item1.lineRange [c8_item1, c8_item2, c8_item3] = 2 := by
  have hub := c8_blank_line_bounds_runs.2.1
    (ReorderableItemKind.fromItem c8_item1) c8_item1.lineRange
    [c8_item1, c8_item2, c8_item3] 1 c8_item2 c8_item3 rfl rfl (by decide)
  have hlb := c8_blank_line_bounds_runs.2.2.1
    (ReorderableItemKind.fromItem c8_item1) c8_item1.lineRange
    [c8_item1, c8_item2, c8_item3] 2
    (by decide)
    (by
      intro j x hj hx
      interval_cases j
      · rw [List.get?_cons_zero] at hx
        injection hx with hx
        subst hx
        decide
      · rw [List.get?_cons_succ, List.get?_cons_zero] at hx
        injection hx with hx
        subst hx
        decide)
    (by
      intro x hx hn1
      rw [List.get?_cons_zero] at hx
      injection hx with hx
      subst hx
      decide)
    (by
      intro j x y hj hx hy
      have hj0 : j = 0 := by omega
      subst hj0
      rw [List.get?_cons_zero] at hx
      rw [List.get?_cons_succ, List.get?_cons_zero] at hy
      injection hx with hx
      injection hy with hy
      subst hx
      subst hy
      decide)
  exact ⟨rfl, rfl, by decide, by omega⟩

theorem except_collect_error {α : Type}
    {xs : List (Except RewriteError α)}
    (h : ∃ x ∈ xs, ∃ e, x = .error e) :
    ∃ e, except_collect xs = .error e := by
  induction xs with
  | nil => simp at h
  | cons x rest ih =>
    rcases h with ⟨y, hy, e, hye⟩
    rcases List.mem_cons.mp hy with h1 | h1
    · subst h1
      subst hye
      exact ⟨e, rfl⟩
    · cases hx : x with
      | error ex =>
        refine ⟨ex, ?_⟩
        simp only [except_collect, hx]
        rfl
      | ok sx =>
        rcases ih ⟨y, h1, e, hye⟩ with ⟨e2, he2⟩
        refine ⟨e2, ?_⟩
        simp only [except_collect, hx]
        rw [he2]
        rfl

theorem write_list_error {xs : List (Except RewriteError String)}
    (h : ∃ x ∈ xs, ∃ e, x = .error e) :
    ∃ e, write_list xs = .error e := by
  rcases except_collect_error h with ⟨e, he⟩
  refine ⟨e, ?_⟩
  simp only [write_list]
  rw [he]
  rfl

theorem take_of_pos_isEmpty_false (it : Item) (rest : List Item) (n : Nat)
    (h : 1 ≤ n) : ((it :: rest).take n).isEmpty = false := by
  obtain ⟨m, rfl⟩ : ∃ m, n = m + 1 := ⟨n - 1, by omega⟩
  rw [List.take_succ_cons]
  rfl

/-- One walker step over a run that spans at least one formatted file
line pushes exactly one span rewrite, carrying the run's rewrite result
(or nothing on failure). -/
theorem walk_fst_eq (ctx : Context) (shape : Shape) (it : Item)
    (rest : List Item) (k : ReorderableItemKind) (g : Bool)
    (hpos : 1 ≤ walk_run_len k g it.lineRange (it :: rest))
    (hany : ((it :: rest).take (walk_run_len k g it.lineRange (it :: rest))).any
      (fun i => !(ctx.outOfFileLines i.span)) = true) :
    (walk_reorderable_or_regroupable_items ctx shape (it :: rest) k g).1 =
      [OutEvent.rewriteSpan
        (run_span it ((it :: rest).take (walk_run_len k g it.lineRange (it :: rest))))
        (rewrite_reorderable_or_regroupable_items ctx
          ((it :: rest).take (walk_run_len k g it.lineRange (it :: rest))) shape
          (run_span it ((it :: rest).take (walk_run_len k g it.lineRange
            (it :: rest))))).toOption] := by
  have hne := take_of_pos_isEmpty_false it rest _ hpos
  simp only [walk_reorderable_or_regroupable_items, run_span]
  rw [hany, hne]
  rfl

/-- The driver's step on a reorderable or regroupable head: the walker's
events, then the blank-line check against the first unconsumed item, then
the rest of the walk. -/
theorem visit_step_reorderable (ctx : Context) (shape : Shape)
    (prev : Option Item) (it : Item) (rest : List Item)
    (hcond : ((ReorderableItemKind.fromItem it).is_reorderable ctx.config ||
      (ReorderableItemKind.fromItem it).is_regroupable ctx.config) = true) :
    visit_items_with_reordering ctx shape prev (it :: rest) =
      (head_walk ctx shape it rest).1 ++
      (match ((it :: rest).drop (head_walk ctx shape it rest).2).head? with
       | some next => maybe_ensure_blank_between ctx prev next
       | none => []) ++
      visit_items_with_reordering ctx shape
        (match (it :: rest).get? ((head_walk ctx shape it rest).2 - 1) with
         | some last => some last
         | none => prev)
        ((it :: rest).drop (head_walk ctx shape it rest).2) := by
  conv_lhs => rw [visit_items_with_reordering]
  simp only [head_walk]
  rw [if_pos hcond]

/-- The driver's step on a head that is neither reorderable nor
regroupable: the blank-line check, the ordinary visit, the rest. -/
theorem visit_step_single (ctx : Context) (shape : Shape)
    (prev : Option Item) (it : Item) (rest : List Item)
    (hcond : ((ReorderableItemKind.fromItem it).is_reorderable ctx.config ||
      (ReorderableItemKind.fromItem it).is_regroupable ctx.config) = false) :
    visit_items_with_reordering ctx shape prev (it :: rest) =
      maybe_ensure_blank_between ctx prev it ++
        (OutEvent.visit it :: visit_items_with_reordering ctx shape (some it) rest) := by
  conv_lhs => rw [visit_items_with_reordering]
  rw [if_neg]
  rw [hcond]
  simp

/-- C1: a declaration that cannot be individually rewritten fails the
rewrite of its whole run (for module and extern-crate runs through the
per-item rewrites, for import runs through the per-tree rewrites), the
walker then pushes a single keep-original rewrite covering the entire
run span, and the driver continues with the remaining declarations. -/
theorem c1_run_failure_falls_back_and_continues (ctx : Context) (shape : Shape) :
    (∀ (span : Span) (first : Item) (tl : List Item),
      ¬isUseItem first →
      (∃ it ∈ first :: tl, ∃ e, rewrite_reorderable_item ctx it shape = .error e) →
      ∃ e, rewrite_reorderable_or_regroupable_items ctx (first :: tl) shape span =
        .error e)
    ∧ (∀ (span : Span) (first : Item) (tl : List Item) (t : UseTree)
        (ns1 ns : Shape),
        first.kind = ItemKind.use t →
        shape.offset_left 4 span = .ok ns1 → ns1.sub_width 1 span = .ok ns →
        (∃ g ∈ use_run_blocks ctx (first :: tl), ∃ u ∈ g, ∃ e,
          ctx.renderUseTree u ns = .error e) →
        ∃ e, rewrite_reorderable_or_regroupable_items ctx (first :: tl) shape span =
          .error e)
    ∧ (∀ (prev : Option Item) (it : Item) (rest : List Item),
        ((ReorderableItemKind.fromItem it).is_reorderable ctx.config ||
          (ReorderableItemKind.fromItem it).is_regroupable ctx.config) = true →
        (head_run ctx shape it rest).any (fun i => !(ctx.outOfFileLines i.span)) = true →
        (∃ e, rewrite_reorderable_or_regroupable_items ctx
            (head_run ctx shape it rest) shape
            (run_span it (head_run ctx shape it rest)) = .error e) →
        (head_walk ctx shape it rest).1 =
          [OutEvent.rewriteSpan (run_span it (head_run ctx shape it rest)) none]
        ∧ visit_items_with_reordering ctx shape prev (it :: rest) =
            [OutEvent.rewriteSpan (run_span it (head_run ctx shape it rest)) none] ++
            (match ((it :: rest).drop (head_walk ctx shape it rest).2).head? with
             | some next => maybe_ensure_blank_between ctx prev next
             | none => []) ++
            visit_items_with_reordering ctx shape
              (match (it :: rest).get? ((head_walk ctx shape it rest).2 - 1) with
               | some last => some last
               | none => prev)
              ((it :: rest).drop (head_walk ctx shape it rest).2)) := by
  refine ⟨?_, ?_, ?_⟩
  · intro span first tl hnotuse hfail
    rcases hfail with ⟨it, hmem, e, he⟩
    have hsorted : (it, rewrite_reorderable_item ctx it shape) ∈
        List.insertionSort
          (fun a b => compare_items ctx.config a.1 b.1 ≠ Ordering.gt)
          ((first :: tl).map
            (fun item => (item, rewrite_reorderable_item ctx item shape))) := by
      rw [List.Perm.mem_iff (List.perm_insertionSort _ _)]
      exact List.mem_map.mpr ⟨it, hmem, rfl⟩
    have hin : ∃ x ∈ (List.insertionSort
        (fun a b => compare_items ctx.config a.1 b.1 ≠ Ordering.gt)
        ((first :: tl).map
          (fun item => (item, rewrite_reorderable_item ctx item shape)))).map
        (fun pair => pair.2), ∃ e, x = Except.error e :=
      ⟨_, List.mem_map.mpr ⟨_, hsorted, rfl⟩, e, he⟩
    rcases write_list_error hin with ⟨e2, he2⟩
    refine ⟨e2, ?_⟩
    cases hk : first.kind with
    | use t => exact absurd ⟨t, hk⟩ hnotuse
    | externCrate o i =>
      simp only [rewrite_reorderable_or_regroupable_items, hk,
        wrap_reorderable_items]
      exact he2
    | mod n b =>
      simp only [rewrite_reorderable_or_regroupable_items, hk,
        wrap_reorderable_items]
      exact he2
    | fn =>
      simp only [rewrite_reorderable_or_regroupable_items, hk,
        wrap_reorderable_items]
      exact he2
    | structItem =>
      simp only [rewrite_reorderable_or_regroupable_items, hk,
        wrap_reorderable_items]
      exact he2
    | enumItem =>
      simp only [rewrite_reorderable_or_regroupable_items, hk,
        wrap_reorderable_items]
      exact he2
    | implItem =>
      simp only [rewrite_reorderable_or_regroupable_items, hk,
        wrap_reorderable_items]
      exact he2
    | traitItem =>
      simp only [rewrite_reorderable_or_regroupable_items, hk,
        wrap_reorderable_items]
      exact he2
    | union =>
      simp only [rewrite_reorderable_or_regroupable_items, hk,
        wrap_reorderable_items]
      exact he2
    | tyAlias =>
      simp only [rewrite_reorderable_or_regroupable_items, hk,
        wrap_reorderable_items]
      exact he2
    | constItem =>
      simp only [rewrite_reorderable_or_regroupable_items, hk,
        wrap_reorderable_items]
      exact he2
    | staticItem =>
      simp only [rewrite_reorderable_or_regroupable_items, hk,
        wrap_reorderable_items]
      exact he2
    | macroDef =>
      simp only [rewrite_reorderable_or_regroupable_items, hk,
        wrap_reorderable_items]
      exact he2
    | macCall =>
      simp only [rewrite_reorderable_or_regroupable_items, hk,
        wrap_reorderable_items]
      exact he2
    | otherKind =>
      simp only [rewrite_reorderable_or_regroupable_items, hk,
        wrap_reorderable_items]
      exact he2
  · intro span first tl t ns1 ns hk hoff hsub hfail
    rcases hfail with ⟨g, hg, u, hu, e, he⟩
    have hblock : ∃ x ∈ (use_run_blocks ctx (first :: tl)).map
        (fun use_group => wrap_reorderable_items ctx
          (use_group.map (fun use_tree => ctx.renderUseTree use_tree ns)) ns),
        ∃ e, x = Except.error e := by
      have hwrap : ∃ e, wrap_reorderable_items ctx
          (g.map (fun use_tree => ctx.renderUseTree use_tree ns)) ns = .error e := by
        have hmem : ∃ x ∈ g.map (fun use_tree => ctx.renderUseTree use_tree ns),
            ∃ e, x = Except.error e :=
          ⟨_, List.mem_map.mpr ⟨u, hu, rfl⟩, e, he⟩
        rcases write_list_error hmem with ⟨e2, he2⟩
        exact ⟨e2, he2⟩
      rcases hwrap with ⟨e2, he2⟩
      exact ⟨_, List.mem_map.mpr ⟨g, hg, rfl⟩, e2, he2⟩
    rcases except_collect_error hblock with ⟨e3, he3⟩
    refine ⟨e3, ?_⟩
    have hbind_ok : ∀ {β γ : Type} (x : β) (f : β → Except RewriteError γ),
        (Except.ok x >>= f) = f x := fun _ _ => rfl
    have hbind_err : ∀ {β γ : Type} (e : RewriteError)
        (f : β → Except RewriteError γ),
        ((Except.error e : Except RewriteError β) >>= f) = .error e :=
      fun _ _ => rfl
    simp only [rewrite_reorderable_or_regroupable_items, hk, rewrite_use_run,
      hoff, hbind_ok, hsub, he3, hbind_err]
  · intro prev it rest hcond hany hfail
    have hpos := walk_run_len_head_pos it rest
      ((ReorderableItemKind.fromItem it).in_group ctx.config)
    have hrun_eq : head_run ctx shape it rest =
        (it :: rest).take (walk_run_len (ReorderableItemKind.fromItem it)
          ((ReorderableItemKind.fromItem it).in_group ctx.config)
          it.lineRange (it :: rest)) := by
      unfold head_run head_walk
      rw [walk_snd_eq_run_len]
    have hfst := walk_fst_eq ctx shape it rest (ReorderableItemKind.fromItem it)
      ((ReorderableItemKind.fromItem it).in_group ctx.config) hpos
      (by rw [← hrun_eq]; exact hany)
    rcases hfail with ⟨e, he⟩
    have hfst2 : (head_walk ctx shape it rest).1 =
        [OutEvent.rewriteSpan (run_span it (head_run ctx shape it rest)) none] := by
      unfold head_walk
      rw [hfst]
      rw [← hrun_eq]
      rw [he]
      rfl
    refine ⟨hfst2, ?_⟩
    rw [visit_step_reorderable ctx shape prev it rest hcond]
    rw [hfst2]

theorem c1_witness :
    (¬isUseItem (ec_item none "a")) ∧
    (∃ it ∈ [ec_item none "a", ec_item none "b"], ∃ e,
      rewrite_reorderable_item c1_ctx it wide_shape = .error e) ∧
    (∃ e, rewrite_reorderable_or_regroupable_items c1_ctx
      [ec_item none "a", ec_item none "b"] wide_shape (Span.mk 0 0) = .error e) ∧
    (head_walk c1_ctx wide_shape (ec_item none "a") [ec_item none "b"]).1 =
      [OutEvent.rewriteSpan
        (run_span (ec_item none "a")
          (head_run c1_ctx wide_shape (ec_item none "a") [ec_item none "b"])) none] := by
  have hnotuse : ¬isUseItem (ec_item none "a") := by
    rintro ⟨t, ht⟩
    simp [ec_item] at ht
  have hfail : ∃ it ∈ [ec_item none "a", ec_item none "b"], ∃ e,
      rewrite_reorderable_item c1_ctx it wide_shape = .error e :=
    ⟨ec_item none "a", by simp, RewriteError.unknown, rfl⟩
  have h1 := (c1_run_failure_falls_back_and_continues c1_ctx wide_shape).1
    (Span.mk 0 0) (ec_item none "a") [ec_item none "b"] hnotuse hfail
  have hfail2 : ∃ e, rewrite_reorderable_or_regroupable_items c1_ctx
      (head_run c1_ctx wide_shape (ec_item none "a") [ec_item none "b"])
      wide_shape
      (run_span (ec_item none "a")
        (head_run c1_ctx wide_shape (ec_item none "a") [ec_item none "b"])) =
      .error e :=
    ⟨RewriteError.unknown, by rfl⟩
  have h3 := ((c1_run_failure_falls_back_and_continues c1_ctx wide_shape).2.2
    none (ec_item none "a") [ec_item none "b"] rfl rfl hfail2).1
  exact ⟨hnotuse, hfail, h1, h3⟩

/-- C4: under the std-external-crate grouping tactic, the import
pipeline partitions the normalized trees into the standard, external and
local groups by first path segment, emits the groups in that order
(sorted when import reordering is on, empty groups skipped), and joins
the rendered blocks with a blank line plus the indent. -/
theorem c4_std_external_local_grouping :
    (∀ uts : List UseTree,
      group_imports uts =
        [uts.filter is_std_root, uts.filter is_external_root,
         uts.filter is_local_root])
    ∧ (∀ (ctx : Context) (items : List Item),
        ctx.config.group_imports = GroupImportsTactic.stdExternalCrate →
        use_run_blocks ctx items =
          ((if ctx.config.reorder_imports then
              [sort_use_trees ((normalize_use_trees_with_granularity
                  (items.filterMap (from_ast_with_normalization ctx))
                  ctx.config.imports_granularity).filter is_std_root),
               sort_use_trees ((normalize_use_trees_with_granularity
                  (items.filterMap (from_ast_with_normalization ctx))
                  ctx.config.imports_granularity).filter is_external_root),
               sort_use_trees ((normalize_use_trees_with_granularity
                  (items.filterMap (from_ast_with_normalization ctx))
                  ctx.config.imports_granularity).filter is_local_root)]
            else
              [(normalize_use_trees_with_granularity
                  (items.filterMap (from_ast_with_normalization ctx))
                  ctx.config.imports_granularity).filter is_std_root,
               (normalize_use_trees_with_granularity
                  (items.filterMap (from_ast_with_normalization ctx))
                  ctx.config.imports_granularity).filter is_external_root,
               (normalize_use_trees_with_granularity
                  (items.filterMap (from_ast_with_normalization ctx))
                  ctx.config.imports_granularity).filter is_local_root]).filter
            (fun use_group => !use_group.isEmpty)))
    ∧ (∀ (ctx : Context) (items : List Item) (shape : Shape) (span : Span)
        (ns1 ns : Shape) (rendered : List String),
        shape.offset_left 4 span = .ok ns1 →
        ns1.sub_width 1 span = .ok ns →
        except_collect ((use_run_blocks ctx items).map
          (fun use_group => wrap_reorderable_items ctx
            (use_group.map (fun use_tree => ctx.renderUseTree use_tree ns)) ns)) =
          .ok rendered →
        rewrite_use_run ctx items shape span =
          .ok (String.intercalate ("\n\n" ++ indent_str shape) rendered)) := by
  refine ⟨group_imports_eq_filters, ?_, ?_⟩
  · intro ctx items hstd
    unfold use_run_blocks regroup_use_trees
    rw [hstd]
    simp only
    rw [group_imports_eq_filters]
    by_cases hr : ctx.config.reorder_imports = true
    · simp only [hr, if_true, ite_true, List.map_cons, List.map_nil]
    · have hr' : ctx.config.reorder_imports = false := by simpa using hr
      simp only [hr', if_false, ite_false, Bool.false_eq_true]
  · intro ctx items shape span ns1 ns rendered hoff hsub hcols
    have hbind_ok : ∀ {β γ : Type} (x : β) (f : β → Except RewriteError γ),
        (Except.ok x >>= f) = f x := fun _ _ => rfl
    simp only [rewrite_use_run, hoff, hbind_ok, hsub, hcols]
    rfl

theorem c4_witness :
    c4_ctx.config.group_imports = GroupImportsTactic.stdExternalCrate ∧
    use_run_blocks c4_ctx
        [use_item_of std_tree, use_item_of ext_tree, use_item_of loc_tree] =
      ((if c4_ctx.config.reorder_imports then
          [sort_use_trees ((normalize_use_trees_with_granularity
              ([use_item_of std_tree, use_item_of ext_tree,
                use_item_of loc_tree].filterMap
                (from_ast_with_normalization c4_ctx))
              c4_ctx.config.imports_granularity).filter is_std_root),
           sort_use_trees ((normalize_use_trees_with_granularity
              ([use_item_of std_tree, use_item_of ext_tree,
                use_item_of loc_tree].filterMap
                (from_ast_with_normalization c4_ctx))
              c4_ctx.config.imports_granularity).filter is_external_root),
           sort_use_trees ((normalize_use_trees_with_granularity
              ([use_item_of std_tree, use_item_of ext_tree,
                use_item_of loc_tree].filterMap
                (from_ast_with_normalization c4_ctx))
              c4_ctx.config.imports_granularity).filter is_local_root)]
        else
          [(normalize_use_trees_with_granularity
              ([use_item_of std_tree, use_item_of ext_tree,
                use_item_of loc_tree].filterMap
                (from_ast_with_normalization c4_ctx))
              c4_ctx.config.imports_granularity).filter is_std_root,
           (normalize_use_trees_with_granularity
              ([use_item_of std_tree, use_item_of ext_tree,
                use_item_of loc_tree].filterMap
                (from_ast_with_normalization c4_ctx))
              c4_ctx.config.imports_granularity).filter is_external_root,
           (normalize_use_trees_with_granularity
              ([use_item_of std_tree, use_item_of ext_tree,
                use_item_of loc_tree].filterMap
                (from_ast_with_normalization c4_ctx))
              c4_ctx.config.imports_granularity).filter is_local_root]).filter
        (fun use_group => !use_group.isEmpty)) ∧
    rewrite_use_run c4_ctx
        [use_item_of std_tree, use_item_of ext_tree, use_item_of loc_tree]
        wide_shape (Span.mk 0 0) =
      .ok (String.intercalate ("\n\n" ++ indent_str wide_shape)
        ["u", "u", "u"]) := by
  refine ⟨rfl, ?_, ?_⟩
  · exact c4_std_external_local_grouping.2.1 c4_ctx
      [use_item_of std_tree, use_item_of ext_tree, use_item_of loc_tree] rfl
  · exact c4_std_external_local_grouping.2.2 c4_ctx
      [use_item_of std_tree, use_item_of ext_tree, use_item_of loc_tree]
      wide_shape (Span.mk 0 0) ⟨96, 4⟩ ⟨95, 4⟩ ["u", "u", "u"] rfl rfl (by rfl)

/-- C9, counterexample: the function declaration is item-like and the
source gap before the following import run has fewer than two newlines,
yet the driver emits the run with no synthetic newline anywhere — the
blank-line check never runs before a run is emitted, only before singly
visited declarations and, after a run, against the declaration that
follows it. -/
theorem c9_counterexample :
    is_item_like c9_fn_item = true
    ∧ count_newlines (c9_ctx.snippet
        (Span.mk c9_fn_item.span.hi c9_use_item.span.lo)) < 2
    ∧ visit_items_with_reordering c9_ctx wide_shape none
        [c9_fn_item, c9_use_item] =
        [OutEvent.visit c9_fn_item,
         OutEvent.rewriteSpan (Span.mk 11 20) (some "use a;")]
    ∧ ∀ ev ∈ visit_items_with_reordering c9_ctx wide_shape none
        [c9_fn_item, c9_use_item], ev ≠ OutEvent.blankLine := by
  have h1 : visit_items_with_reordering c9_ctx wide_shape none
      [c9_fn_item, c9_use_item] =
      maybe_ensure_blank_between c9_ctx none c9_fn_item ++
        (OutEvent.visit c9_fn_item ::
          visit_items_with_reordering c9_ctx wide_shape (some c9_fn_item)
            [c9_use_item]) :=
    visit_step_single c9_ctx wide_shape none c9_fn_item [c9_use_item] rfl
  have h2 : visit_items_with_reordering c9_ctx wide_shape (some c9_fn_item)
      [c9_use_item] =
      (head_walk c9_ctx wide_shape c9_use_item []).1 ++
      (match (([c9_use_item] : List Item).drop
          (head_walk c9_ctx wide_shape c9_use_item []).2).head? with
       | some next => maybe_ensure_blank_between c9_ctx (some c9_fn_item) next
       | none => []) ++
      visit_items_with_reordering c9_ctx wide_shape
        (match ([c9_use_item] : List Item).get?
            ((head_walk c9_ctx wide_shape c9_use_item []).2 - 1) with
         | some last => some last
         | none => some c9_fn_item)
        (([c9_use_item] : List Item).drop
          (head_walk c9_ctx wide_shape c9_use_item []).2) :=
    visit_step_reorderable c9_ctx wide_shape (some c9_fn_item) c9_use_item [] rfl
  have hwalk : (head_walk c9_ctx wide_shape c9_use_item []).1 =
      [OutEvent.rewriteSpan (Span.mk 11 20) (some "use a;")] := by rfl
  have hcnt : (head_walk c9_ctx wide_shape c9_use_item []).2 = 1 := by rfl
  have hnil : ∀ p, visit_items_with_reordering c9_ctx wide_shape p [] = [] := by
    intro p
    simp [visit_items_with_reordering]
  have h3 : visit_items_with_reordering c9_ctx wide_shape none
      [c9_fn_item, c9_use_item] =
      [OutEvent.visit c9_fn_item,
       OutEvent.rewriteSpan (Span.mk 11 20) (some "use a;")] := by
    rw [h1, h2, hwalk, hcnt]
    simp only [List.drop_succ_cons, List.drop_nil, List.head?_nil]
    rw [hnil]
    rfl
  refine ⟨rfl, by decide, h3, ?_⟩
  intro ev hev
  rw [h3] at hev
  rcases List.mem_cons.mp hev with h | h
  · subst h
    simp
  · rcases List.mem_cons.mp h with h4 | h4
    · subst h4
      simp
    · simp at h4

/-- C9, amended: a synthetic newline is pushed exactly when one side of
the checked pair is item-like and the source gap between the pair has
fewer than two newlines; the pair checked before a singly visited
declaration is (previously emitted declaration, that declaration), while
for a run no check runs before the run — after the run is emitted, the
pair (declaration emitted before the run, first declaration after the
run) is checked, and only when a declaration follows the run. -/
theorem c9_blank_line_reinsertion_amended (ctx : Context) (shape : Shape) :
    (∀ (prev : Option Item) (next : Item),
      maybe_ensure_blank_between ctx prev next =
        (match prev with
         | some p =>
           if (is_item_like p || is_item_like next) &&
               decide (count_newlines
                 (ctx.snippet (Span.mk p.span.hi next.span.lo)) < 2) then
             [OutEvent.blankLine]
           else []
         | none => []))
    ∧ (∀ (prev : Option Item) (it : Item) (rest : List Item),
        ((ReorderableItemKind.fromItem it).is_reorderable ctx.config ||
          (ReorderableItemKind.fromItem it).is_regroupable ctx.config) = false →
        visit_items_with_reordering ctx shape prev (it :: rest) =
          maybe_ensure_blank_between ctx prev it ++
            (OutEvent.visit it ::
              visit_items_with_reordering ctx shape (some it) rest))
    ∧ (∀ (prev : Option Item) (it : Item) (rest : List Item),
        ((ReorderableItemKind.fromItem it).is_reorderable ctx.config ||
          (ReorderableItemKind.fromItem it).is_regroupable ctx.config) = true →
        visit_items_with_reordering ctx shape prev (it :: rest) =
          (head_walk ctx shape it rest).1 ++
          (match ((it :: rest).drop (head_walk ctx shape it rest).2).head? with
           | some next => maybe_ensure_blank_between ctx prev next
           | none => []) ++
          visit_items_with_reordering ctx shape
            (match (it :: rest).get? ((head_walk ctx shape it rest).2 - 1) with
             | some last => some last
             | none => prev)
            ((it :: rest).drop (head_walk ctx shape it rest).2)) := by
  refine ⟨?_, ?_, ?_⟩
  · intro prev next
    cases prev with
    | none => rfl
    | some p =>
      simp only [maybe_ensure_blank_between, ensure_blank_line_between_items]
      by_cases hil : (is_item_like p || is_item_like next) = true
      · by_cases hlt : count_newlines
            (ctx.snippet (Span.mk p.span.hi next.span.lo)) < 2
        · simp [hil, hlt]
        · simp [hil, hlt]
      · have hil' : (is_item_like p || is_item_like next) = false := by
          simpa using hil
        simp [hil']
  · intro prev it rest hcond
    exact visit_step_single ctx shape prev it rest hcond
  · intro prev it rest hcond
    exact visit_step_reorderable ctx shape prev it rest hcond

theorem c9_witness :
    ((ReorderableItemKind.fromItem c9_use_item).is_reorderable c9_ctx.config ||
      (ReorderableItemKind.fromItem c9_use_item).is_regroupable
        c9_ctx.config) = true ∧
    visit_items_with_reordering c9_ctx wide_shape (some c9_fn_item)
        [c9_use_item] =
      (head_walk c9_ctx wide_shape c9_use_item []).1 ++
      (match (([c9_use_item] : List Item).drop
          (head_walk c9_ctx wide_shape c9_use_item []).2).head? with
       | some next => maybe_ensure_blank_between c9_ctx (some c9_fn_item) next
       | none => []) ++
      visit_items_with_reordering c9_ctx wide_shape
        (match ([c9_use_item] : List Item).get?
            ((head_walk c9_ctx wide_shape c9_use_item []).2 - 1) with
         | some last => some last
         | none => some c9_fn_item)
        (([c9_use_item] : List Item).drop
          (head_walk c9_ctx wide_shape c9_use_item []).2) :=
  ⟨rfl, (c9_blank_line_reinsertion_amended c9_ctx wide_shape).2.2
    (some c9_fn_item) c9_use_item [] rfl⟩

end Reorder
